import Mathlib

/-!
# TinyInfiniTensor: arena allocator and graph ordering

A shallow embedding of `src/core/allocator.cc` and of `GraphObj::topo_sort`
(`src/core/graph.cc`), followed by theorems about them.

* `size_t` values are natural numbers below `SIZE_MOD = 2 ^ 64`; every `+`, `-`
  and `*` of the source on `size_t` is reduced modulo `SIZE_MOD`.
* The free-block map `std::map<size_t, size_t>` is the list of its entries in
  iteration (key) order; an iterator is a split point of that list.
* A member function becomes a function from the state before the call to the
  state after it, paired with what the call returned or raised.
-/

namespace infini

/-! ## Allocator: data model -/

/-- Number of values of the 64-bit `size_t`; allocator arithmetic wraps modulo it. -/
def SIZE_MOD : Nat := 2 ^ 64

/-- The value `alignment = sizeof(uint64_t)` fixed by the constructor. -/
def alignment : Nat := 8

/-- The free-block map: entries `(start address, length)` in iteration order. -/
abbrev FreeMap := List (Nat × Nat)

/-- Representation invariant of a `std::map<size_t, size_t>`: keys strictly
increasing along the iteration order, keys and values in the range of `size_t`. -/
def FreeMap.Valid (m : FreeMap) : Prop :=
  m.Pairwise (fun x y => x.1 < y.1) ∧ ∀ b ∈ m, b.1 < SIZE_MOD ∧ b.2 < SIZE_MOD

instance (m : FreeMap) : Decidable m.Valid := by
  unfold FreeMap.Valid; infer_instance

/-- The call `freeBlocks.erase(it)` for the iterator at key `k`. -/
def mapErase (k : Nat) : FreeMap → FreeMap
  | [] => []
  | (first, second) :: rest =>
    if first = k then rest else (first, second) :: mapErase k rest

/-- The assignment `freeBlocks[k] = v`: overwrite the entry at key `k`, or insert
a new entry at its place in key order. -/
def mapAssign (k v : Nat) : FreeMap → FreeMap
  | [] => [(k, v)]
  | (first, second) :: rest =>
    if k < first then (k, v) :: (first, second) :: rest
    else if k = first then (k, v) :: rest
    else (first, second) :: mapAssign k v rest

/-- The fields of `Allocator` that `alloc`, `free` and `getPtr` read or write.
`ptr = 0` is `nullptr`. -/
structure Allocator where
  used : Nat
  peak : Nat
  ptr : Nat
  freeBlocks : FreeMap
deriving DecidableEq

/-- How a call ends: it returns a value, `IT_ASSERT` fails, `alloc` throws
`std::runtime_error("No enough memory")`, or the call dereferences
`freeBlocks.end()`, which C++ leaves undefined. -/
inductive Outcome (α : Type) where
  | ok (val : α)
  | assertionFailed
  | outOfMemory
  | undefinedBehaviour
deriving DecidableEq

/-- The planning-phase state the properties below start from: `used = peak = 0`
and `ptr = nullptr` as the constructor sets them, and a free map holding the
single block `[0, L)`. The constructor in `allocator.cc` does not touch the free
map, whose initial content comes with its declaration in `core/allocator.h`; the
length `L` of the initial block is therefore a parameter. -/
def Allocator.planning (L : Nat) : Allocator :=
  { used := 0, peak := 0, ptr := 0, freeBlocks := [(0, L)] }

/-- Modelled from the spec: the macro `IT_ASSERT` of `core/common.h`. A failed
assertion is fatal and fail-fast: the call ends there, with the object as it is
at that point; otherwise the rest of the function body runs. -/
def IT_ASSERT {α : Type} (cond : Bool) (a : Allocator) (body : Allocator × Outcome α) :
    Allocator × Outcome α :=
  if cond then body else (a, Outcome.assertionFailed)

/-! ## Allocator: operations -/

/-- `Allocator::getAlignedSize`: `((size - 1) / alignment + 1) * alignment` in
`size_t` arithmetic. -/
def getAlignedSize (size : Nat) : Nat :=
  ((((size + SIZE_MOD - 1) % SIZE_MOD) / alignment + 1) * alignment) % SIZE_MOD

/-- The body of the `if` in the loop of `Allocator::alloc`, for the block
`(addr, len)` the iterator points at: the block is erased, its tail re-inserted
when `remain > 0`, `used` raised by `size` and `peak` raised to it. -/
def Allocator.takeBlock (a : Allocator) (size addr len : Nat) : Allocator :=
  let remain := len - size
  let erased := mapErase addr a.freeBlocks
  let used := (a.used + size) % SIZE_MOD
  { a with
    freeBlocks := if remain > 0 then mapAssign ((addr + size) % SIZE_MOD) remain erased else erased
    used := used
    peak := max a.peak used }

/-- The `for` loop of `Allocator::alloc` over the free blocks still to visit;
`size` is already aligned. It returns the address of the first block with
`second >= size`, and throws when it runs off the end. -/
def Allocator.allocScan (a : Allocator) (size : Nat) : FreeMap → Allocator × Outcome Nat
  | [] => (a, Outcome.outOfMemory)
  | (first, second) :: rest =>
    if second ≥ size then (a.takeBlock size first second, Outcome.ok first)
    else a.allocScan size rest

/-- `Allocator::alloc`. -/
def Allocator.alloc (a : Allocator) (size : Nat) : Allocator × Outcome Nat :=
  IT_ASSERT (a.ptr == 0) a (a.allocScan (getAlignedSize size) a.freeBlocks)

/-- The `while` loop of `Allocator::free`, run on the entries from the iterator
`it` onwards: while `it->first <= addr + size` (`bound`), the entry raises `rhs`,
is added to `used` and is erased. Returns the entries left from `it` on, `rhs`
and `used`. -/
def freeMerge (bound : Nat) : FreeMap → Nat → Nat → FreeMap × Nat × Nat
  | [], rhs, used => ([], rhs, used)
  | (first, second) :: rest, rhs, used =>
    if first ≤ bound then
      freeMerge bound rest (max ((first + second) % SIZE_MOD) rhs) ((used + second) % SIZE_MOD)
    else ((first, second) :: rest, rhs, used)

/-- The part of `Allocator::free` from the `while` loop to the end: `kept` are
the entries before `it`, `fromIt` those from `it` on. -/
def Allocator.freeFinish (a : Allocator) (kept fromIt : FreeMap) (bound lhs rhs used : Nat) :
    Allocator × Outcome Unit :=
  let merged := freeMerge bound fromIt rhs used
  let span := (merged.2.1 + SIZE_MOD - lhs) % SIZE_MOD
  ({ a with freeBlocks := mapAssign lhs span (kept ++ merged.1),
            used := (merged.2.2 + SIZE_MOD - span) % SIZE_MOD }, Outcome.ok ())

/-- `Allocator::free`. `below` are the entries before `lower_bound(addr)` and
`above` those from it on. When `it != begin()`, `auto jt = it--` makes `jt` the
entry at `lower_bound(addr)` (the head of `above`, or `end()`) and `it` the last
entry of `below`. -/
def Allocator.free (a : Allocator) (addr size : Nat) : Allocator × Outcome Unit :=
  IT_ASSERT (a.ptr == 0) a <|
    let size := getAlignedSize size
    let lhs := addr
    let rhs := (addr + size) % SIZE_MOD
    let below := a.freeBlocks.takeWhile (fun b => b.1 < addr)
    let above := a.freeBlocks.dropWhile (fun b => b.1 < addr)
    match below.reverse, above with
    | [], _ => a.freeFinish [] above rhs lhs rhs a.used
    | _ :: _, [] => (a, Outcome.undefinedBehaviour)
    | it :: revInit, jt :: after =>
      if (jt.1 + jt.2) % SIZE_MOD ≥ addr then
        a.freeFinish revInit.reverse (it :: after) rhs jt.1 rhs ((a.used + jt.2) % SIZE_MOD)
      else
        a.freeFinish revInit.reverse (it :: jt :: after) rhs lhs rhs a.used

/-- `Allocator::getPtr`; `rtAlloc` is the runtime's `alloc`, the external
backing-store provider, returning the buffer handle (`0` for a null handle). -/
def Allocator.getPtr (rtAlloc : Nat → Nat) (a : Allocator) : Allocator × Nat :=
  if a.ptr = 0 then
    let p := rtAlloc a.peak
    ({ a with ptr := p }, p)
  else (a, a.ptr)

/-! ## Allocator: clients and the words of the specification -/

/-- The specification's "size rounded up to a multiple of the alignment", over
the unbounded naturals. -/
def alignUp (size : Nat) : Nat := (size + 7) / 8 * 8

/-- Adjacent entries of a free map never overlap: each block ends at or before
the start of every later one. -/
def FreeMap.Disjoint (m : FreeMap) : Prop :=
  m.Pairwise (fun x y => x.1 + x.2 ≤ y.1)

instance (m : FreeMap) : Decidable m.Disjoint := by
  unfold FreeMap.Disjoint; infer_instance

/-- Every free block lies inside the 64-bit address space. -/
def FreeMap.InSpace (m : FreeMap) : Prop :=
  ∀ b ∈ m, b.1 + b.2 ≤ SIZE_MOD

instance (m : FreeMap) : Decidable m.InSpace := by
  unfold FreeMap.InSpace; infer_instance

/-- A step of a client that holds its regions as a stack: allocate a region, or
release the most recently allocated region it still holds. -/
inductive StackCall where
  | alloc (size : Nat)
  | freeLast
deriving DecidableEq

/-- The client runs its steps in order. `live` lists the regions it holds as
`(address, requested size)`, most recent first; a region enters it when `alloc`
returns the address, and `freeLast` calls `free` with the address and size of the
head. Returns the final state and the regions still held. -/
def Allocator.runStack (a : Allocator) (live : List (Nat × Nat)) :
    List StackCall → Allocator × List (Nat × Nat)
  | [] => (a, live)
  | StackCall.alloc size :: rest =>
    match a.alloc size with
    | (next, Outcome.ok addr) => next.runStack ((addr, size) :: live) rest
    | (next, _) => next.runStack live rest
  | StackCall.freeLast :: rest =>
    match live with
    | [] => a.runStack [] rest
    | (addr, size) :: below => (a.free addr size).1.runStack below rest

/-- The held regions lie one on top of the other from address 0 up to `top`. -/
def Stacked : List (Nat × Nat) → Nat → Prop
  | [], top => top = 0
  | (addr, size) :: below, top => addr + getAlignedSize size = top ∧ Stacked below addr

/-- One call on an allocator object. -/
inductive Call where
  | alloc (size : Nat)
  | free (addr size : Nat)
  | getPtr
deriving DecidableEq

/-- The state after a client makes the given calls in order: a client that
catches what a call throws and goes on. A call that ends in
`undefinedBehaviour` is taken to leave the state as it was. -/
def Allocator.run (rtAlloc : Nat → Nat) (a : Allocator) : List Call → Allocator
  | [] => a
  | Call.alloc size :: rest => Allocator.run rtAlloc (a.alloc size).1 rest
  | Call.free addr size :: rest => Allocator.run rtAlloc (a.free addr size).1 rest
  | Call.getPtr :: rest => Allocator.run rtAlloc (a.getPtr rtAlloc).1 rest

/-! ## Graph: topological sort -/

/-- The operator kinds the optimizer tells apart, out of `OpType`; `Other` stands
for every kind that is neither `Transpose` nor `MatMul`. -/
inductive OpType where
  | Transpose
  | MatMul
  | Other
deriving DecidableEq

/-- A graph with the operator and tensor objects it refers to. Operators and
tensors are named by their addresses. `ops` and `tensors` are the two vectors of
the graph and `sorted` its cached flag; the other fields give, for the object at
an address, a member of it: `inputs op` is `op->getInputs()`, `source t` is
`t->getSource()` (`none` for a null source), and so on for the outputs,
predecessors and successors of an operator, its kind, the permutation of a
Transpose, the flags of a MatMul, and the targets, `fuid`, byte size and bound
data pointer of a tensor. `allocator` is the allocator the graph owns.
`topo_sort` reads and writes only `ops`, `inputs`, `source` and `sorted`. -/
structure GraphObj where
  ops : List Nat
  inputs : Nat → List Nat
  source : Nat → Option Nat
  sorted : Bool
  tensors : List Nat := []
  outputs : Nat → List Nat := fun _ => []
  targets : Nat → List Nat := fun _ => []
  predecessors : Nat → List Nat := fun _ => []
  successors : Nat → List Nat := fun _ => []
  opType : Nat → OpType := fun _ => OpType.Other
  permute : Nat → List Int := fun _ => []
  transA : Nat → Bool := fun _ => false
  transB : Nat → Bool := fun _ => false
  fuid : Nat → Nat := fun t => t
  bytes : Nat → Nat := fun _ => 0
  dataBlob : Nat → Option Nat := fun _ => none
  allocator : Allocator := Allocator.planning 0

/-- The condition of the `if` inside the `for` loop of `topo_sort`: `op` is not
flagged and every input has no source or a flagged source. -/
def GraphObj.ready (g : GraphObj) (flags : List Nat) (op : Nat) : Bool :=
  !decide (op ∈ flags) &&
    (g.inputs op).all (fun input =>
      match g.source input with
      | none => true
      | some src => decide (src ∈ flags))

/-- The `for (auto const &op : ops)` loop of `topo_sort` over the operators still
to visit, threading the vector `sorted`, the set `flags` and the flag `modified`. -/
def GraphObj.topoPass (g : GraphObj) :
    List Nat → List Nat × List Nat × Bool → List Nat × List Nat × Bool
  | [], st => st
  | op :: rest, (sorted, flags, modified) =>
    if g.ready flags op then g.topoPass rest (sorted ++ [op], op :: flags, true)
    else g.topoPass rest (sorted, flags, modified)

/-- The `while (sorted.size() < ops.size())` loop of `topo_sort`, with a bound on
the number of passes. `some none` is `return false`, `some (some l)` is leaving
the loop with `sorted = l`, and `none` is running out of passes. -/
def GraphObj.topoLoop (g : GraphObj) : Nat → List Nat → List Nat → Option (Option (List Nat))
  | fuel, sorted, flags =>
    if sorted.length < g.ops.length then
      match fuel with
      | 0 => none
      | fuel + 1 =>
        let r := g.topoPass g.ops (sorted, flags, false)
        if r.2.2 then g.topoLoop fuel r.1 r.2.1 else some none
    else some (some sorted)

/-- `GraphObj::topo_sort`: the graph after the call and the returned flag. Every
pass that does not return adds an operator to `sorted`, so `ops.size()` passes
are allowed. -/
def GraphObj.topo_sort (g : GraphObj) : Option (GraphObj × Bool) :=
  if g.sorted then some (g, true)
  else
    match g.topoLoop g.ops.length [] [] with
    | none => none
    | some none => some (g, false)
    | some (some sorted) => some ({ g with ops := sorted, sorted := true }, true)

/-- Operator `a` produces an input tensor of operator `b`, both in the graph. -/
def GraphObj.dep (g : GraphObj) (a b : Nat) : Prop :=
  a ∈ g.ops ∧ b ∈ g.ops ∧ ∃ t ∈ g.inputs b, g.source t = some a

/-- The producer-to-consumer relation has no cycle. -/
def GraphObj.Acyclic (g : GraphObj) : Prop :=
  ∀ a, ¬ Relation.TransGen g.dep a a

/-- In the list `l`, every operator comes strictly after the source operator of
each of its input tensors that has one. -/
def GraphObj.Ordered (g : GraphObj) (l : List Nat) : Prop :=
  ∀ (j op : Nat), l[j]? = some op → ∀ t ∈ g.inputs op, ∀ src, g.source t = some src →
    ∃ i : Nat, i < j ∧ l[i]? = some src

/-- The loop invariant of `topo_sort`: `flags` holds exactly the operators of
`sorted`, which are distinct operators of the graph, each placed after the
sources of its inputs. -/
def GraphObj.TopoInv (g : GraphObj) (sorted flags : List Nat) : Prop :=
  (∀ x, x ∈ flags ↔ x ∈ sorted) ∧ sorted.Nodup ∧ (∀ x ∈ sorted, x ∈ g.ops) ∧
    g.Ordered sorted

/-- A three-operator chain listed consumer first: operator 3 reads tensor 12
made by operator 2, which reads tensor 11 made by operator 1, which reads the
graph input 10. -/
def chainGraph : GraphObj :=
  { ops := [3, 2, 1]
    inputs := fun op => if op = 1 then [10] else if op = 2 then [11] else if op = 3 then [12] else []
    source := fun t => if t = 11 then some 1 else if t = 12 then some 2 else none
    sorted := false }

/-- Two operators that consume each other's output. -/
def cycleGraph : GraphObj :=
  { ops := [1, 2]
    inputs := fun op => if op = 1 then [12] else if op = 2 then [11] else []
    source := fun t => if t = 11 then some 1 else if t = 12 then some 2 else none
    sorted := false }

/-! ## MatMul: shape inference -/

/-- A tensor shape, `Shape = vector<int>`. -/
abbrev Shape := List Int

/-- Sequencing of calls: the second call runs only when the first returned. -/
def Outcome.bind {α β : Type} : Outcome α → (α → Outcome β) → Outcome β
  | Outcome.ok val, f => f val
  | Outcome.assertionFailed, _ => Outcome.assertionFailed
  | Outcome.outOfMemory, _ => Outcome.outOfMemory
  | Outcome.undefinedBehaviour, _ => Outcome.undefinedBehaviour

/-- Modelled from the spec: the broadcasting of `infer_broadcast`
(`utils/operator_utils`), on the two shapes read from their last axis on. Two
dimensions are compatible if equal or either is 1, the 1 being absorbed;
unequal sizes that are both not 1 are a shape error; the longer shape keeps its
extra leading axes. -/
def broadcastAligned : List Int → List Int → Outcome (List Int)
  | [], bs => Outcome.ok bs
  | a :: as, [] => Outcome.ok (a :: as)
  | a :: as, b :: bs =>
    if a = b ∨ b = 1 then (broadcastAligned as bs).bind (fun r => Outcome.ok (a :: r))
    else if a = 1 then (broadcastAligned as bs).bind (fun r => Outcome.ok (b :: r))
    else Outcome.assertionFailed

/-- Modelled from the spec: `infer_broadcast` of `utils/operator_utils`, the
right-aligned, size-1-absorbing broadcast of two shapes; a shape error ends the
call as a failed assertion. -/
def infer_broadcast (A B : Shape) : Outcome Shape :=
  (broadcastAligned A.reverse B.reverse).bind (fun r => Outcome.ok r.reverse)

/-- The element `*(shape.rbegin() + i)`. -/
def fromEnd (shape : Shape) (i : Nat) : Int :=
  shape.reverse.getD i 0

/-- What `MatmulObj::inferShape` leaves: the returned vector of shapes and the
members `m`, `n`, `k` it stores. -/
structure MatmulShape where
  shapes : List Shape
  m : Int
  n : Int
  k : Int
deriving DecidableEq

/-- `MatmulObj::inferShape` on the dimensions of `inputs[0]` and `inputs[1]`.
With a rank below 2 the iterators `begin() + (rank - 2)` and `rbegin() + 1` leave
the vector, which C++ leaves undefined. -/
def MatmulObj.inferShape (shapeA shapeB : Shape) (transA transB : Bool) :
    Outcome MatmulShape :=
  let rankA := shapeA.length
  let rankB := shapeB.length
  if rankA < 2 ∨ rankB < 2 then Outcome.undefinedBehaviour
  else
    let shapeA1 := shapeA.take (rankA - 2)
    let shapeB1 := shapeB.take (rankB - 2)
    (infer_broadcast shapeA1 shapeB1).bind (fun ret =>
      let kA := if transA then fromEnd shapeA 1 else fromEnd shapeA 0
      let kB := if transB then fromEnd shapeB 0 else fromEnd shapeB 1
      if kA = kB then
        let m := if transA then fromEnd shapeA 0 else fromEnd shapeA 1
        let n := if transB then fromEnd shapeB 1 else fromEnd shapeB 0
        Outcome.ok { shapes := [ret ++ [m, n]], m := m, n := n, k := kA }
      else Outcome.assertionFailed)

/-- The shape with its last two dimensions exchanged (what a last-two-axis
Transpose produces); shapes of rank below 2 are left as they are. -/
def swapLast2 (shape : Shape) : Shape :=
  match shape.reverse with
  | a :: b :: rest => (b :: a :: rest).reverse
  | _ => shape

/-! ## Optimizer: the tests on permutations -/

/-- The loop of `invalid_trans` from index `i` on, over the entries of
`permute1` still to visit: `res[i] = permute2[permute1[i]]`, and `false` is
returned at the first `res[i] != i`. An entry of `permute1` that is not an index
of `permute2` makes the subscript undefined. -/
def invalidTransScan (permute2 : List Int) : Nat → List Int → Outcome Bool
  | _, [] => Outcome.ok true
  | i, v :: rest =>
    if v < 0 ∨ (permute2.length : Int) ≤ v then Outcome.undefinedBehaviour
    else if permute2.getD v.toNat 0 ≠ (i : Int) then Outcome.ok false
    else invalidTransScan permute2 (i + 1) rest

/-- The function `invalid_trans` of `graph.cc`. -/
def invalid_trans (permute1 permute2 : List Int) : Outcome Bool :=
  if permute1.length = permute2.length then invalidTransScan permute2 0 permute1
  else Outcome.assertionFailed

/-- The loop of `last2_premute`: `permute[i] == i` for the indices from `i` on
that the list `entries` still holds. -/
def last2Scan : Nat → List Int → Bool
  | _, [] => true
  | i, v :: rest => if v ≠ (i : Int) then false else last2Scan (i + 1) rest

/-- The function `last2_premute` of `graph.cc`: the loop runs over the indices
below `size - 2`, then the last two entries are compared. -/
def last2_premute (permute : List Int) : Bool :=
  if last2Scan 0 (permute.take (permute.length - 2)) then
    decide (permute.length ≥ 2) &&
      decide (permute.getD (permute.length - 1) 0 = ((permute.length : Int) - 2)) &&
      decide (permute.getD (permute.length - 2) 0 = ((permute.length : Int) - 1))
  else false

/-! ## Graph: members of the operator and tensor objects -/

/-- The member function `f` with the value at the object `k` replaced by `v`. -/
def setAt {α : Type} (f : Nat → α) (k : Nat) (v : α) : Nat → α :=
  fun x => if x = k then v else f x

/-- Modelled from the spec: `TensorObj::addTarget`, which registers the operator
as a target (consumer) of the tensor. -/
def GraphObj.addTarget (g : GraphObj) (t op : Nat) : GraphObj :=
  { g with targets := setAt g.targets t (g.targets t ++ [op]) }

/-- Modelled from the spec: `TensorObj::removeTarget`, which drops the operator
from the target list of the tensor. -/
def GraphObj.removeTarget (g : GraphObj) (t op : Nat) : GraphObj :=
  { g with targets := setAt g.targets t ((g.targets t).filter (fun c => c ≠ op)) }

/-- Modelled from the spec: `TensorObj::setSource`, which sets the producing
operator of the tensor. -/
def GraphObj.setSource (g : GraphObj) (t op : Nat) : GraphObj :=
  { g with source := setAt g.source t (some op) }

/-- Modelled from the spec: `OperatorObj::addPredecessors`, which links `pred` as
a predecessor of `op`. -/
def GraphObj.addPredecessors (g : GraphObj) (op pred : Nat) : GraphObj :=
  { g with predecessors := setAt g.predecessors op (g.predecessors op ++ [pred]) }

/-- Modelled from the spec: `OperatorObj::addSuccessors`, which links `succ` as a
successor of `op`. -/
def GraphObj.addSuccessors (g : GraphObj) (op succ : Nat) : GraphObj :=
  { g with successors := setAt g.successors op (g.successors op ++ [succ]) }

/-- Modelled from the spec: `OperatorObj::removePredecessors`, which drops `pred`
from the predecessors of `op`. -/
def GraphObj.removePredecessors (g : GraphObj) (op pred : Nat) : GraphObj :=
  { g with
    predecessors := setAt g.predecessors op ((g.predecessors op).filter (fun c => c ≠ pred)) }

/-- Modelled from the spec: `OperatorObj::removeSuccessors`, which drops `succ`
from the successors of `op`. -/
def GraphObj.removeSuccessors (g : GraphObj) (op succ : Nat) : GraphObj :=
  { g with
    successors := setAt g.successors op ((g.successors op).filter (fun c => c ≠ succ)) }

/-- Modelled from the spec: `OperatorObj::replaceInput`, which redirects the
operator from consuming `t1` to consuming `t2`. -/
def GraphObj.replaceInput (g : GraphObj) (op t1 t2 : Nat) : GraphObj :=
  { g with inputs := setAt g.inputs op ((g.inputs op).map (fun t => if t = t1 then t2 else t)) }

/-- Modelled from the spec: `MatmulObj::setTransA`, the mutator of the flag. -/
def GraphObj.setTransA (g : GraphObj) (op : Nat) (v : Bool) : GraphObj :=
  { g with transA := setAt g.transA op v }

/-- Modelled from the spec: `MatmulObj::setTransB`, the mutator of the flag. -/
def GraphObj.setTransB (g : GraphObj) (op : Nat) (v : Bool) : GraphObj :=
  { g with transB := setAt g.transB op v }

/-- Modelled from the spec: `TensorObj::setDataBlob`, which binds the tensor to
the memory at `ptr`. -/
def GraphObj.setDataBlob (g : GraphObj) (t ptr : Nat) : GraphObj :=
  { g with dataBlob := setAt g.dataBlob t (some ptr) }

/-- Modelled from the spec: `GraphObj::removeTensor`, which removes the tensor
from the tensor set of the graph; a removal invalidates the `sorted` flag. -/
def GraphObj.removeTensor (g : GraphObj) (t : Nat) : GraphObj :=
  { g with tensors := g.tensors.erase t, sorted := false }

/-- Modelled from the spec: `GraphObj::removeOperator`, which removes the
operator from the operator set of the graph; a removal invalidates the `sorted`
flag. -/
def GraphObj.removeOperator (g : GraphObj) (op : Nat) : GraphObj :=
  { g with ops := g.ops.erase op, sorted := false }

/-! ## Graph: connection and validity -/

/-- The first loop of `addOperatorAndConnect`, for one input of `op`. -/
def GraphObj.connectInput (op : Nat) (g : GraphObj) (input : Nat) : GraphObj :=
  let g1 := g.addTarget input op
  match g1.source input with
  | some pred => (g1.addSuccessors pred op).addPredecessors op pred
  | none => g1

/-- The second loop of `addOperatorAndConnect`, for one output of `op`. -/
def GraphObj.connectOutput (op : Nat) (g : GraphObj) (output : Nat) : GraphObj :=
  let g1 := g.setSource output op
  (g1.targets output).foldl (fun h succ => (h.addPredecessors succ op).addSuccessors op succ) g1

/-- `GraphObj::addOperatorAndConnect`, for an operator object whose input and
output lists are set (all of them non-null tensors). -/
def GraphObj.addOperatorAndConnect (g : GraphObj) (op : Nat) : GraphObj :=
  let g1 := { g with sorted := false, ops := g.ops ++ [op] }
  let g2 := (g1.inputs op).foldl (GraphObj.connectInput op) g1
  (g2.outputs op).foldl (GraphObj.connectOutput op) g2

/-- The assertions `checkValid` makes on one tensor of the graph. -/
def GraphObj.tensorValid (g : GraphObj) (t : Nat) : Bool :=
  !((g.targets t).length == 0 && (g.source t).isNone) &&
    (g.targets t).all (fun op => decide (op ∈ g.ops)) &&
    (match g.source t with
     | some op => decide (op ∈ g.ops)
     | none => true)

/-- The assertions `checkValid` makes on one operator of the graph. -/
def GraphObj.opValid (g : GraphObj) (op : Nat) : Bool :=
  (g.inputs op).all (fun t => decide (t ∈ g.tensors)) &&
    (g.outputs op).all (fun t => decide (t ∈ g.tensors)) &&
    (g.predecessors op).all (fun pre => decide (pre ∈ g.ops)) &&
    (g.successors op).all (fun suc => decide (suc ∈ g.ops))

/-- `GraphObj::checkValid`: it returns true when every assertion holds, the last
loop asserting that no `fuid` occurs twice among the tensors. -/
def GraphObj.checkValid (g : GraphObj) : Outcome Bool :=
  if g.tensors.all g.tensorValid && g.ops.all g.opValid &&
      decide ((g.tensors.map g.fuid).Nodup) then Outcome.ok true
  else Outcome.assertionFailed

/-! ## Graph: the optimizer -/

/-- The loop `for (auto &op : tensor->getTargets())` of both rules: every
consumer of `old` is redirected to `repl` and registered as a target of it. -/
def GraphObj.redirectTargets (g : GraphObj) (old repl : Nat) : GraphObj :=
  (g.targets old).foldl (fun h c => (h.replaceInput c old repl).addTarget repl c) g

/-- The body of Rule 1 of `optimize` once the guard has passed, for the
Transpose `op` and its predecessor `pre_op`. A missing first input or output
makes the subscript `[0]` undefined. -/
def GraphObj.eliminatePair (g : GraphObj) (remove_ops : List Nat) (op pre_op : Nat) :
    Outcome (GraphObj × List Nat) :=
  match (g.inputs pre_op)[0]?, (g.outputs op)[0]? with
  | some input_tensor, some output_tensor =>
    let g1 := g.removeTarget input_tensor pre_op
    let g2 := g1.redirectTargets output_tensor input_tensor
    let g3 := g2.removeTensor output_tensor
    match (g3.inputs op)[0]? with
    | some mid =>
      let g4 := g3.removeTensor mid
      let pre_pre_op : Option Nat :=
        match g4.predecessors pre_op with
        | [p] => some p
        | _ => none
      let g5 := match pre_pre_op with
        | some p => g4.removeSuccessors p pre_op
        | none => g4
      let g6 := (g5.successors op).foldl (fun h post_op =>
        let h1 := h.removePredecessors post_op op
        match pre_pre_op with
        | some p => h1.addSuccessors p post_op
        | none => h1) g5
      Outcome.ok (g6, remove_ops ++ [pre_op, op])
    | none => Outcome.undefinedBehaviour
  | _, _ => Outcome.undefinedBehaviour

/-- Rule 1 of `optimize` for the operator `op`: the chain of `if`, `else if`
with its three guards, then the elimination. -/
def GraphObj.rule1 (g : GraphObj) (remove_ops : List Nat) (op : Nat) :
    Outcome (GraphObj × List Nat) :=
  match g.predecessors op with
  | [pre_op] =>
    if g.opType pre_op ≠ OpType.Transpose ∨ g.opType op ≠ OpType.Transpose then
      Outcome.ok (g, remove_ops)
    else
      (invalid_trans (g.permute op) (g.permute pre_op)).bind (fun inverse =>
        if inverse then g.eliminatePair remove_ops op pre_op
        else Outcome.ok (g, remove_ops))
  | _ => Outcome.ok (g, remove_ops)

/-- The fusion of Rule 2 once its guards have passed: the Transpose `pre_op`
producing the input `input` (number `i`) of the MatMul `op` is folded into the
flag of the MatMul. -/
def GraphObj.fuseTranspose (g : GraphObj) (remove_ops : List Nat) (op i input pre_op : Nat) :
    Outcome (GraphObj × List Nat) :=
  let g1 := if i = 0 then g.setTransA op (!g.transA op) else g.setTransB op (!g.transB op)
  match (g1.inputs pre_op)[0]? with
  | some input_tensor =>
    let g2 := g1.removeTarget input_tensor pre_op
    let g3 := g2.redirectTargets input input_tensor
    match (g3.outputs pre_op)[0]? with
    | some out =>
      let g4 := g3.removeTensor out
      let g5 := match g4.predecessors pre_op with
        | [p] => (g4.removeSuccessors p pre_op).addSuccessors p op
        | _ => g4
      Outcome.ok (g5.removePredecessors op pre_op, remove_ops ++ [pre_op])
    | none => Outcome.undefinedBehaviour
  | none => Outcome.undefinedBehaviour

/-- The body of the loop `for (int i = 0; i < 2; i++)` of Rule 2, for input
number `i` of the MatMul `op`. -/
def GraphObj.rule2Input (g : GraphObj) (remove_ops : List Nat) (op i : Nat) :
    Outcome (GraphObj × List Nat) :=
  match (g.inputs op)[i]? with
  | some input =>
    match g.source input with
    | none => Outcome.ok (g, remove_ops)
    | some pre_op =>
      if g.opType pre_op = OpType.Transpose ∧ (g.successors pre_op).length = 1 then
        if last2_premute (g.permute pre_op) then g.fuseTranspose remove_ops op i input pre_op
        else Outcome.ok (g, remove_ops)
      else Outcome.ok (g, remove_ops)
  | none => Outcome.undefinedBehaviour

/-- Rule 2 of `optimize` for the operator `op`. -/
def GraphObj.rule2 (g : GraphObj) (remove_ops : List Nat) (op : Nat) :
    Outcome (GraphObj × List Nat) :=
  if g.opType op = OpType.MatMul then
    (g.rule2Input remove_ops op 0).bind (fun r => r.1.rule2Input r.2 op 1)
  else Outcome.ok (g, remove_ops)

/-- The loop of `optimize` over the operators still to visit (the operator
vector itself is not changed while it runs): Rule 1, then Rule 2. -/
def GraphObj.optimizeScan : List Nat → GraphObj → List Nat → Outcome (GraphObj × List Nat)
  | [], g, remove_ops => Outcome.ok (g, remove_ops)
  | op :: rest, g, remove_ops =>
    (g.rule1 remove_ops op).bind (fun r1 =>
      (r1.1.rule2 r1.2 op).bind (fun r2 => GraphObj.optimizeScan rest r2.1 r2.2))

/-- `GraphObj::optimize`: it returns the graph it leaves. `IT_ASSERT(topo_sort())`
fails when the sort returns false (the sort always returns); the scheduled
operators are removed after the scan. -/
def GraphObj.optimize (g : GraphObj) : Outcome GraphObj :=
  match g.topo_sort with
  | some (g1, true) =>
    (GraphObj.optimizeScan g1.ops g1 []).bind (fun r =>
      Outcome.ok (r.2.foldl GraphObj.removeOperator r.1))
  | _ => Outcome.assertionFailed

/-! ## Graph: memory planning -/

/-- The first loop of `dataMalloc`: `total_size += tensor->getBytes()`. -/
def GraphObj.totalSize (g : GraphObj) : List Nat → Nat → Nat
  | [], total => total
  | t :: rest, total => g.totalSize rest ((total + g.bytes t) % SIZE_MOD)

/-- The second loop of `dataMalloc` over the tensors still to visit: each
tensor is bound to `getPtr() + addr`, and `addr` advances by its byte size. -/
def GraphObj.bindBlobs (rtAlloc : Nat → Nat) : List Nat → GraphObj → Nat → GraphObj
  | [], g, _ => g
  | t :: rest, g, addr =>
    let r := g.allocator.getPtr rtAlloc
    let g1 := { g with allocator := r.1 }
    GraphObj.bindBlobs rtAlloc rest (g1.setDataBlob t (r.2 + addr))
      ((addr + g.bytes t) % SIZE_MOD)

/-- `GraphObj::dataMalloc`, with `rtAlloc` the `alloc` of the runtime. It returns
the graph it leaves; the out-of-memory error of `alloc` is passed on. -/
def GraphObj.dataMalloc (rtAlloc : Nat → Nat) (g : GraphObj) : Outcome GraphObj :=
  match g.topo_sort with
  | some (g1, true) =>
    let total_size := g1.totalSize g1.tensors 0
    match g1.allocator.alloc total_size with
    | (a1, Outcome.ok addr) =>
      Outcome.ok (GraphObj.bindBlobs rtAlloc g1.tensors { g1 with allocator := a1 } addr)
    | (_, Outcome.outOfMemory) => Outcome.outOfMemory
    | (_, Outcome.assertionFailed) => Outcome.assertionFailed
    | (_, Outcome.undefinedBehaviour) => Outcome.undefinedBehaviour
  | _ => Outcome.assertionFailed

/-! ## Graph: the words of the specification and example graphs -/

/-- The predecessor and successor lists agree with the tensor edges: for every
operator of the graph, its predecessors are exactly the sources of its inputs,
its successors are exactly the targets of its outputs, and it is a successor of
exactly the operators it has as predecessors. -/
def GraphObj.edgesAgree (g : GraphObj) : Bool :=
  g.ops.all (fun op =>
    (g.predecessors op).all (fun p =>
      (g.inputs op).any (fun t => decide (g.source t = some p))) &&
    (g.inputs op).all (fun t =>
      match g.source t with
      | some p => decide (p ∈ g.predecessors op)
      | none => true) &&
    (g.successors op).all (fun s =>
      (g.outputs op).any (fun t => decide (s ∈ g.targets t))) &&
    (g.outputs op).all (fun t =>
      (g.targets t).all (fun s => decide (s ∈ g.successors op))) &&
    (g.predecessors op).all (fun p => decide (op ∈ g.successors p)) &&
    (g.successors op).all (fun s => decide (op ∈ g.predecessors s)))

/-- The operator and tensor objects of a chain of two Transposes with
permutation `[1, 0]` and a downstream operator, before any of them is attached:
Transpose 1 reads tensor 1 (`x`) and makes tensor 2 (`t1`), Transpose 2 reads
`t1` and makes tensor 3 (`t2`), and operator 3 of kind `kind` reads `dInputs`
and makes tensor 4. Tensor 5 is a further graph input, present when the
downstream operator reads it. -/
def pairObjects (kind : OpType) (dInputs : List Nat) (dPermute : List Int)
    (dTransA dTransB : Bool) : GraphObj :=
  { ops := []
    sorted := false
    source := fun _ => none
    tensors := if 5 ∈ dInputs then [1, 2, 3, 4, 5] else [1, 2, 3, 4]
    inputs := fun o => if o = 1 then [1] else if o = 2 then [2] else if o = 3 then dInputs else []
    outputs := fun o => if o = 1 then [2] else if o = 2 then [3] else if o = 3 then [4] else []
    opType := fun o => if o = 1 ∨ o = 2 then OpType.Transpose else kind
    permute := fun o => if o = 1 ∨ o = 2 then [1, 0] else dPermute
    transA := fun _ => dTransA
    transB := fun _ => dTransB }

/-- The graph of the Rule 1 example, its three operators attached with
`addOperatorAndConnect` in the given order. -/
def inversePairGraph (kind : OpType) (dInputs : List Nat) (dPermute : List Int)
    (dTransA dTransB : Bool) (order : List Nat) : GraphObj :=
  order.foldl GraphObj.addOperatorAndConnect (pairObjects kind dInputs dPermute dTransA dTransB)

/-- The chain of `inversePairGraph` with a second consumer of the intermediate
tensor `t1`: operator 4 reads tensor 2 and makes tensor 5. -/
def sharedMiddleGraph : GraphObj :=
  [1, 2, 3, 4].foldl GraphObj.addOperatorAndConnect
    { ops := []
      sorted := false
      source := fun _ => none
      tensors := [1, 2, 3, 4, 5]
      inputs := fun o =>
        if o = 1 then [1] else if o = 2 then [2] else if o = 3 then [3]
        else if o = 4 then [2] else []
      outputs := fun o =>
        if o = 1 then [2] else if o = 2 then [3] else if o = 3 then [4]
        else if o = 4 then [5] else []
      opType := fun o => if o = 1 ∨ o = 2 then OpType.Transpose else OpType.Other
      permute := fun o => if o = 1 ∨ o = 2 then [1, 0] else [] }

/-- The two Transposes with permutation `[1, 0]` alone: tensor 1 is the graph
input and tensor 3 the graph output. -/
def barePairGraph : GraphObj :=
  [1, 2].foldl GraphObj.addOperatorAndConnect
    { ops := []
      sorted := false
      source := fun _ => none
      tensors := [1, 2, 3]
      inputs := fun o => if o = 1 then [1] else if o = 2 then [2] else []
      outputs := fun o => if o = 1 then [2] else if o = 2 then [3] else []
      opType := fun _ => OpType.Transpose
      permute := fun _ => [1, 0] }

/-- The chain of `inversePairGraph` behind a producer: operator 4 reads the graph
input 5 and makes tensor 1, the input of the first Transpose. -/
def producedPairGraph : GraphObj :=
  [4, 1, 2, 3].foldl GraphObj.addOperatorAndConnect
    { ops := []
      sorted := false
      source := fun _ => none
      tensors := [5, 1, 2, 3, 4]
      inputs := fun o =>
        if o = 1 then [1] else if o = 2 then [2] else if o = 3 then [3]
        else if o = 4 then [5] else []
      outputs := fun o =>
        if o = 1 then [2] else if o = 2 then [3] else if o = 3 then [4]
        else if o = 4 then [1] else []
      opType := fun o => if o = 1 ∨ o = 2 then OpType.Transpose else OpType.Other
      permute := fun o => if o = 1 ∨ o = 2 then [1, 0] else [] }

/-- A MatMul behind a producer and a last-two-axis Transpose: operator 1 reads
the graph input 1 and makes tensor 2, Transpose 2 with permutation `[0, 2, 1]`
reads tensor 2 and makes tensor 3, and MatMul 3 reads tensor 3 and the graph
input 4 and makes tensor 5. -/
def producedFusionGraph : GraphObj :=
  [1, 2, 3].foldl GraphObj.addOperatorAndConnect
    { ops := []
      sorted := false
      source := fun _ => none
      tensors := [1, 2, 3, 4, 5]
      inputs := fun o => if o = 1 then [1] else if o = 2 then [2] else if o = 3 then [3, 4] else []
      outputs := fun o => if o = 1 then [2] else if o = 2 then [3] else if o = 3 then [5] else []
      opType := fun o =>
        if o = 2 then OpType.Transpose else if o = 3 then OpType.MatMul else OpType.Other
      permute := fun o => if o = 2 then [0, 2, 1] else [] }

/-! ## Optimizer: what a rewrite step may change -/

/-- The chain `chainGraph` with its three tensors of 4, 12 and 8 bytes in the
tensor list, and an allocator in planning phase with the free block `[0, 64)`. -/
def plannedGraph : GraphObj :=
  { chainGraph with
    tensors := [10, 11, 12]
    bytes := fun t => if t = 10 then 4 else if t = 11 then 12 else 8
    allocator := Allocator.planning 64 }

/-- The chain `chainGraph` with one tensor of 8 bytes named twice in the tensor
list, and an allocator in planning phase with the free block `[0, 64)`. -/
def repeatedTensorGraph : GraphObj :=
  { chainGraph with
    tensors := [10, 10]
    bytes := fun _ => 8
    allocator := Allocator.planning 64 }

theorem getAlignedSize_eq_alignUp (size : Nat) (h1 : 1 ≤ size) (h2 : size ≤ SIZE_MOD - 8) :
    getAlignedSize size = alignUp size := by
  unfold getAlignedSize alignUp SIZE_MOD alignment at *
  omega

/-- The rounded size is the least multiple of 8 that is at least `size`. -/
theorem alignUp_least (size : Nat) :
    8 ∣ alignUp size ∧ size ≤ alignUp size ∧ alignUp size < size + 8 := by
  unfold alignUp
  exact ⟨Nat.dvd_mul_left 8 _, by omega, by omega⟩

theorem getAlignedSize_lt (size : Nat) : getAlignedSize size < SIZE_MOD := by
  unfold getAlignedSize
  exact Nat.mod_lt _ (by unfold SIZE_MOD; positivity)

/-- The scan either finds no fitting block and throws, or stops at the first
fitting block of the list it walks. -/
theorem allocScan_cases (a : Allocator) (size : Nat) (l : FreeMap) :
    ((∀ b ∈ l, b.2 < size) ∧ a.allocScan size l = (a, Outcome.outOfMemory)) ∨
    ∃ pre addr len post, l = pre ++ (addr, len) :: post ∧ (∀ c ∈ pre, c.2 < size) ∧
      size ≤ len ∧ a.allocScan size l = (a.takeBlock size addr len, Outcome.ok addr) := by
  induction l with
  | nil => left; simp [Allocator.allocScan]
  | cons hd tl ih =>
    obtain ⟨k, v⟩ := hd
    by_cases hfit : size ≤ v
    · right
      refine ⟨[], k, v, tl, rfl, by simp, hfit, ?_⟩
      simp [Allocator.allocScan, hfit]
    · rcases ih with ⟨hall, hres⟩ | ⟨pre, addr, len, post, hl, hpre, hle, hres⟩
      · left
        refine ⟨?_, ?_⟩
        · intro b hb
          rcases List.mem_cons.1 hb with rfl | hb
          · exact Nat.lt_of_not_le hfit
          · exact hall b hb
        · simp [Allocator.allocScan, hfit, hres]
      · right
        refine ⟨(k, v) :: pre, addr, len, post, by simp [hl], ?_, hle, ?_⟩
        · intro c hc
          rcases List.mem_cons.1 hc with rfl | hc
          · exact Nat.lt_of_not_le hfit
          · exact hpre c hc
        · simp [Allocator.allocScan, hfit, hres]

/-- C1 (as amended): in a planning-phase state with a well-formed free map, for
every size from 1 to `2 ^ 64 - 8`, `alloc` throws the out-of-memory error exactly
when no free block is as long as the size rounded up to a multiple of 8, and
otherwise returns the start of the lowest-addressed free block that long. -/
theorem alloc_first_fit (a : Allocator) (size : Nat) (hptr : a.ptr = 0)
    (hvalid : a.freeBlocks.Valid) (h1 : 1 ≤ size) (h2 : size ≤ SIZE_MOD - 8) :
    ((a.alloc size).2 = Outcome.outOfMemory ↔ ∀ b ∈ a.freeBlocks, b.2 < alignUp size) ∧
    ((∃ b ∈ a.freeBlocks, alignUp size ≤ b.2) →
      ∃ b ∈ a.freeBlocks, alignUp size ≤ b.2 ∧
        (∀ c ∈ a.freeBlocks, alignUp size ≤ c.2 → b.1 ≤ c.1) ∧
        (a.alloc size).2 = Outcome.ok b.1) := by
  have hal := getAlignedSize_eq_alignUp size h1 h2
  have halloc : a.alloc size = a.allocScan (alignUp size) a.freeBlocks := by
    simp [Allocator.alloc, IT_ASSERT, hptr, hal]
  rcases allocScan_cases a (alignUp size) a.freeBlocks with
    ⟨hall, hres⟩ | ⟨pre, addr, len, post, hl, hpre, hle, hres⟩
  · refine ⟨?_, ?_⟩
    · rw [halloc, hres]; exact ⟨fun _ => hall, fun _ => rfl⟩
    · rintro ⟨b, hb, hfit⟩
      exact absurd (hall b hb) (Nat.not_lt.2 hfit)
  · have hmem : (addr, len) ∈ a.freeBlocks := by rw [hl]; simp
    refine ⟨?_, ?_⟩
    · rw [halloc, hres]
      constructor
      · intro h; cases h
      · intro hall
        exact absurd (hall _ hmem) (Nat.not_lt.2 hle)
    · intro _
      refine ⟨(addr, len), hmem, hle, ?_, by rw [halloc, hres]⟩
      intro c hc hcfit
      have hsorted := hvalid.1
      rw [hl] at hc hsorted
      rcases List.mem_append.1 hc with hc | hc
      · exact absurd (hpre c hc) (Nat.not_lt.2 hcfit)
      · rcases List.mem_cons.1 hc with rfl | hc
        · exact Nat.le_refl _
        · have := (List.pairwise_cons.1 (List.pairwise_append.1 hsorted).2.1).1 c hc
          exact Nat.le_of_lt this

theorem alloc_first_fit_witness :
    (((Allocator.planning 64).alloc 5).2 = Outcome.outOfMemory ↔
      ∀ b ∈ (Allocator.planning 64).freeBlocks, b.2 < alignUp 5) ∧
    ((∃ b ∈ (Allocator.planning 64).freeBlocks, alignUp 5 ≤ b.2) →
      ∃ b ∈ (Allocator.planning 64).freeBlocks, alignUp 5 ≤ b.2 ∧
        (∀ c ∈ (Allocator.planning 64).freeBlocks, alignUp 5 ≤ c.2 → b.1 ≤ c.1) ∧
        ((Allocator.planning 64).alloc 5).2 = Outcome.ok b.1) :=
  alloc_first_fit (Allocator.planning 64) 5 rfl (by decide) (by decide) (by decide)

/-- C1 (as stated) fails for sizes above `2 ^ 64 - 8`: the rounded size wraps to
0, so `alloc (2 ^ 64 - 1)` returns address 0 from a free map whose only block
has 8 bytes, although no block is as long as the rounded size `2 ^ 64`. -/
theorem alloc_huge_size_wraps :
    1 ≤ 2 ^ 64 - 1 ∧ alignUp (2 ^ 64 - 1) = 2 ^ 64 ∧ getAlignedSize (2 ^ 64 - 1) = 0 ∧
    (∀ b ∈ (Allocator.planning 8).freeBlocks, b.2 < alignUp (2 ^ 64 - 1)) ∧
    ((Allocator.planning 8).alloc (2 ^ 64 - 1)).2 = Outcome.ok 0 ∧
    ((Allocator.planning 8).alloc (2 ^ 64 - 1)).2 ≠ Outcome.outOfMemory := by
  decide

/-- C2 (code defect): after `alloc 8`, `alloc 8`, `alloc 16`, `free 0 8` on the
single block `[0, 40)` the free blocks are `[0, 8)` and `[32, 40)`, disjoint and
not adjacent, and the region `[8, 16)` overlaps neither. Freeing it must give
`[(0, 16), (32, 8)]`. In the code `jt` is the block at 32, not the one ending at
8: the result is the single entry `(32, 2 ^ 64 - 16)` and `used` goes from 24 to
56. With no block above the region (`alloc 8`, `alloc 8`, `free 0 8` on
`[0, 16)`, then `free 8 8`), `jt` is `end()` and is dereferenced. -/
theorem free_below_neighbour_diverges :
    Allocator.run (fun _ => 0) (Allocator.planning 40)
        [Call.alloc 8, Call.alloc 8, Call.alloc 16, Call.free 0 8] =
      { used := 24, peak := 32, ptr := 0, freeBlocks := [(0, 8), (32, 8)] } ∧
    FreeMap.Valid [(0, 8), (32, 8)] ∧ FreeMap.Disjoint [(0, 8), (32, 8)] ∧
    getAlignedSize 8 = 8 ∧
    Allocator.free { used := 24, peak := 32, ptr := 0, freeBlocks := [(0, 8), (32, 8)] } 8 8 =
      ({ used := 56, peak := 32, ptr := 0, freeBlocks := [(32, 2 ^ 64 - 16)] },
        Outcome.ok ()) ∧
    Allocator.run (fun _ => 0) (Allocator.planning 16)
        [Call.alloc 8, Call.alloc 8, Call.free 0 8] =
      { used := 8, peak := 16, ptr := 0, freeBlocks := [(0, 8)] } ∧
    Allocator.free { used := 8, peak := 16, ptr := 0, freeBlocks := [(0, 8)] } 8 8 =
      ({ used := 8, peak := 16, ptr := 0, freeBlocks := [(0, 8)] },
        Outcome.undefinedBehaviour) := by
  decide

/-- C3 (code defect): from the single block `[0, 32)`, `alloc 8` and `alloc 8`
return 0 and 8; freeing the two regions in the order they were allocated ends
with the free map `[(16, 0)]` and `used = 32`, not with `[(0, 32)]` and
`used = 0`. -/
theorem free_in_alloc_order_diverges :
    (Allocator.planning 32).alloc 8 =
      ({ used := 8, peak := 8, ptr := 0, freeBlocks := [(8, 24)] }, Outcome.ok 0) ∧
    Allocator.alloc { used := 8, peak := 8, ptr := 0, freeBlocks := [(8, 24)] } 8 =
      ({ used := 16, peak := 16, ptr := 0, freeBlocks := [(16, 16)] }, Outcome.ok 8) ∧
    Allocator.free { used := 16, peak := 16, ptr := 0, freeBlocks := [(16, 16)] } 0 8 =
      ({ used := 8, peak := 16, ptr := 0, freeBlocks := [(0, 8), (16, 16)] },
        Outcome.ok ()) ∧
    Allocator.free { used := 8, peak := 16, ptr := 0, freeBlocks := [(0, 8), (16, 16)] } 8 8 =
      ({ used := 32, peak := 16, ptr := 0, freeBlocks := [(16, 0)] }, Outcome.ok ()) := by
  decide

/-- C4 (code defect): from the single block `[0, 64)` the calls `alloc 8`,
`alloc 16`, `alloc 8`, `free 0 8`, `free 8 16` leave only the region `[24, 32)`
of 8 bytes allocated, yet `used` is 72 after the last call (it was 24 before
it). -/
theorem used_after_free_diverges :
    Allocator.run (fun _ => 0) (Allocator.planning 64)
        [Call.alloc 8, Call.alloc 16, Call.alloc 8] =
      { used := 32, peak := 32, ptr := 0, freeBlocks := [(32, 32)] } ∧
    Allocator.run (fun _ => 0) (Allocator.planning 64)
        [Call.alloc 8, Call.alloc 16, Call.alloc 8, Call.free 0 8] =
      { used := 24, peak := 32, ptr := 0, freeBlocks := [(0, 8), (32, 32)] } ∧
    Allocator.run (fun _ => 0) (Allocator.planning 64)
        [Call.alloc 8, Call.alloc 16, Call.alloc 8, Call.free 0 8, Call.free 8 16] =
      { used := 72, peak := 32, ptr := 0, freeBlocks := [(32, 2 ^ 64 - 8)] } := by
  decide

/-- C5 (as stated) fails: from the single block `[0, 64)` with
`used = peak = 0`, the calls `alloc 8`, `alloc 8`, `free 0 8`, `alloc 16` return
the addresses 0, 8 and 16; the last region `[16, 32)` is live and ends at 32,
above `peak = 24`. -/
theorem live_region_exceeds_peak :
    (Allocator.planning 64).alloc 8 =
      ({ used := 8, peak := 8, ptr := 0, freeBlocks := [(8, 56)] }, Outcome.ok 0) ∧
    Allocator.alloc { used := 8, peak := 8, ptr := 0, freeBlocks := [(8, 56)] } 8 =
      ({ used := 16, peak := 16, ptr := 0, freeBlocks := [(16, 48)] }, Outcome.ok 8) ∧
    Allocator.free { used := 16, peak := 16, ptr := 0, freeBlocks := [(16, 48)] } 0 8 =
      ({ used := 8, peak := 16, ptr := 0, freeBlocks := [(0, 8), (16, 48)] },
        Outcome.ok ()) ∧
    Allocator.alloc { used := 8, peak := 16, ptr := 0, freeBlocks := [(0, 8), (16, 48)] } 16 =
      ({ used := 24, peak := 24, ptr := 0, freeBlocks := [(0, 8), (32, 32)] },
        Outcome.ok 16) ∧
    getAlignedSize 16 = 16 ∧ ¬ (16 + getAlignedSize 16 ≤ 24) := by
  decide

/-- C6 (as stated) fails in three kinds of state. With `used = 2 ^ 64 - 8` and
the free block `[0, 8)`, `alloc 8` wraps `used` to 0. With the overlapping free
blocks `(0, 16)` and `(8, 4)`, `alloc 8` takes the first and its tail `(8, 8)`
overwrites the second. With the block `(2 ^ 64 - 8, 24)` running past the end
of the address space, `alloc 16` puts the tail at the wrapped key 8 over the
block `(8, 4)`. -/
theorem alloc_frame_breaks :
    Allocator.alloc { used := 2 ^ 64 - 8, peak := 2 ^ 64 - 8, ptr := 0, freeBlocks := [(0, 8)] } 8 =
      ({ used := 0, peak := 2 ^ 64 - 8, ptr := 0, freeBlocks := [] }, Outcome.ok 0) ∧
    Allocator.alloc { used := 0, peak := 0, ptr := 0, freeBlocks := [(0, 16), (8, 4)] } 8 =
      ({ used := 8, peak := 8, ptr := 0, freeBlocks := [(8, 8)] }, Outcome.ok 0) ∧
    Allocator.alloc { used := 0, peak := 0, ptr := 0, freeBlocks := [(8, 4), (2 ^ 64 - 8, 24)] } 16 =
      ({ used := 16, peak := 16, ptr := 0, freeBlocks := [(8, 8)] }, Outcome.ok (2 ^ 64 - 8)) := by
  decide

theorem mapErase_middle (k v : Nat) (pre post : FreeMap) (hpre : ∀ c ∈ pre, c.1 ≠ k) :
    mapErase k (pre ++ (k, v) :: post) = pre ++ post := by
  induction pre with
  | nil => simp [mapErase]
  | cons hd tl ih =>
    obtain ⟨k1, v1⟩ := hd
    have hne : k1 ≠ k := hpre (k1, v1) (by simp)
    have := ih (fun c hc => hpre c (List.mem_cons_of_mem _ hc))
    simp [mapErase, hne, this]

theorem mapAssign_middle (k v : Nat) (pre post : FreeMap) (hpre : ∀ c ∈ pre, c.1 < k)
    (hpost : ∀ c ∈ post, k < c.1) :
    mapAssign k v (pre ++ post) = pre ++ (k, v) :: post := by
  induction pre with
  | nil =>
    cases post with
    | nil => simp [mapAssign]
    | cons hd tl =>
      obtain ⟨k1, v1⟩ := hd
      have : k < k1 := hpost (k1, v1) (by simp)
      simp [mapAssign, this]
  | cons hd tl ih =>
    obtain ⟨k1, v1⟩ := hd
    have hlt : k1 < k := hpre (k1, v1) (by simp)
    have := ih (fun c hc => hpre c (List.mem_cons_of_mem _ hc))
    have h1 : ¬ k < k1 := by omega
    have h2 : ¬ k = k1 := by omega
    simp [mapAssign, h1, h2, this]

/-- C6 (as amended): in a state whose free blocks are in key order, do not
overlap and lie inside the address space, and where `used` plus the aligned size
stays below `2 ^ 64`, a successful `alloc` replaces the block `(addr, len)` it
took by the tail `(addr + s, len - s)` when `len > s` and removes it when
`len = s`, keeps every other entry, raises `used` by exactly `s`, and sets
`peak` to the maximum of the old `peak` and the new `used`. -/
theorem alloc_frame (a next : Allocator) (size addr : Nat)
    (hvalid : a.freeBlocks.Valid) (hdisj : a.freeBlocks.Disjoint)
    (hspace : a.freeBlocks.InSpace) (hused : a.used + getAlignedSize size < SIZE_MOD)
    (h : a.alloc size = (next, Outcome.ok addr)) :
    ∃ pre len post, a.freeBlocks = pre ++ (addr, len) :: post ∧
      getAlignedSize size ≤ len ∧
      next.freeBlocks =
        pre ++ (if getAlignedSize size < len then
          [(addr + getAlignedSize size, len - getAlignedSize size)] else []) ++ post ∧
      next.used = a.used + getAlignedSize size ∧
      next.peak = max a.peak next.used ∧ a.peak ≤ next.peak ∧ next.ptr = a.ptr := by
  have hptr : a.ptr = 0 := by
    by_contra hp
    simp [Allocator.alloc, IT_ASSERT, hp] at h
  have halloc : a.alloc size = a.allocScan (getAlignedSize size) a.freeBlocks := by
    simp [Allocator.alloc, IT_ASSERT, hptr]
  rw [halloc] at h
  rcases allocScan_cases a (getAlignedSize size) a.freeBlocks with
    ⟨_, hres⟩ | ⟨pre, addr1, len, post, hl, _, hle, hres⟩
  · rw [hres] at h; simp at h
  · rw [hres] at h
    simp only [Prod.mk.injEq, Outcome.ok.injEq] at h
    obtain ⟨hnext, haddr⟩ := h
    subst haddr
    have hsorted := hvalid.1
    have hd := hdisj
    unfold FreeMap.Disjoint at hd
    rw [hl] at hsorted hd
    have hpre_lt : ∀ c ∈ pre, c.1 < addr1 := fun c hc =>
      (List.pairwise_append.1 hsorted).2.2 c hc (addr1, len) (by simp)
    have hpost_le : ∀ c ∈ post, addr1 + len ≤ c.1 := fun c hc =>
      (List.pairwise_cons.1 (List.pairwise_append.1 hd).2.1).1 c hc
    have hin : addr1 + len ≤ SIZE_MOD := hspace (addr1, len) (by rw [hl]; simp)
    have herase : mapErase addr1 a.freeBlocks = pre ++ post := by
      rw [hl]
      exact mapErase_middle addr1 len pre post (fun c hc => Nat.ne_of_lt (hpre_lt c hc))
    have hmod : (a.used + getAlignedSize size) % SIZE_MOD = a.used + getAlignedSize size :=
      Nat.mod_eq_of_lt hused
    refine ⟨pre, len, post, hl, hle, ?_, ?_, ?_, ?_, ?_⟩
    · rw [← hnext]
      simp only [Allocator.takeBlock, herase]
      by_cases hlt : getAlignedSize size < len
      · have hpos : len - getAlignedSize size > 0 := by omega
        have hk : (addr1 + getAlignedSize size) % SIZE_MOD = addr1 + getAlignedSize size :=
          Nat.mod_eq_of_lt (by omega)
        rw [if_pos hpos, if_pos hlt, hk]
        rw [mapAssign_middle _ _ pre post (fun c hc => by have := hpre_lt c hc; omega)
          (fun c hc => by have := hpost_le c hc; omega)]
        simp
      · have hpos : ¬ len - getAlignedSize size > 0 := by omega
        rw [if_neg hpos, if_neg hlt]
        simp
    · rw [← hnext]; simp [Allocator.takeBlock, hmod]
    · rw [← hnext]; simp [Allocator.takeBlock]
    · rw [← hnext]; simp [Allocator.takeBlock]
    · rw [← hnext]; simp [Allocator.takeBlock]

theorem alloc_frame_witness :
    ∃ pre len post, (Allocator.planning 64).freeBlocks = pre ++ (0, len) :: post ∧
      getAlignedSize 5 ≤ len ∧
      ({ used := 8, peak := 8, ptr := 0, freeBlocks := [(8, 56)] } : Allocator).freeBlocks =
        pre ++ (if getAlignedSize 5 < len then
          [(0 + getAlignedSize 5, len - getAlignedSize 5)] else []) ++ post ∧
      ({ used := 8, peak := 8, ptr := 0, freeBlocks := [(8, 56)] } : Allocator).used =
        (Allocator.planning 64).used + getAlignedSize 5 ∧
      ({ used := 8, peak := 8, ptr := 0, freeBlocks := [(8, 56)] } : Allocator).peak =
        max (Allocator.planning 64).peak
          ({ used := 8, peak := 8, ptr := 0, freeBlocks := [(8, 56)] } : Allocator).used ∧
      (Allocator.planning 64).peak ≤
        ({ used := 8, peak := 8, ptr := 0, freeBlocks := [(8, 56)] } : Allocator).peak ∧
      ({ used := 8, peak := 8, ptr := 0, freeBlocks := [(8, 56)] } : Allocator).ptr =
        (Allocator.planning 64).ptr :=
  alloc_frame (Allocator.planning 64) { used := 8, peak := 8, ptr := 0, freeBlocks := [(8, 56)] }
    5 0 (by decide) (by decide) (by decide) (by decide) (by decide)

/-- From the single block `[0, L)` with `[0, used)` allocated, `alloc` either
throws or returns `used` and leaves the rest of the block free. -/
theorem alloc_stack_step (L : Nat) (hL : L < SIZE_MOD) (a : Allocator) (size : Nat)
    (hptr : a.ptr = 0) (hused : a.used ≤ L)
    (hfb : a.freeBlocks = [(a.used, L - a.used)] ∨ (a.freeBlocks = [] ∧ a.used = L)) :
    a.alloc size = (a, Outcome.outOfMemory) ∨
    ∃ next, a.alloc size = (next, Outcome.ok a.used) ∧ next.ptr = 0 ∧ next.used ≤ L ∧
      next.used ≤ next.peak ∧ next.used = a.used + getAlignedSize size ∧
      (next.freeBlocks = [(next.used, L - next.used)] ∨
        (next.freeBlocks = [] ∧ next.used = L)) := by
  have halloc : a.alloc size = a.allocScan (getAlignedSize size) a.freeBlocks := by
    simp [Allocator.alloc, IT_ASSERT, hptr]
  rcases hfb with hfb | ⟨hfb, _⟩
  · by_cases hfit : getAlignedSize size ≤ L - a.used
    · right
      have hmod : (a.used + getAlignedSize size) % SIZE_MOD = a.used + getAlignedSize size :=
        Nat.mod_eq_of_lt (by omega)
      refine ⟨a.takeBlock (getAlignedSize size) a.used (L - a.used), ?_, ?_, ?_, ?_, ?_, ?_⟩
      · rw [halloc, hfb]; simp [Allocator.allocScan, hfit]
      · simpa [Allocator.takeBlock] using hptr
      · simp only [Allocator.takeBlock, hmod]; omega
      · simp only [Allocator.takeBlock, hmod]; omega
      · simp only [Allocator.takeBlock, hmod]
      · simp only [Allocator.takeBlock, hmod, hfb, mapErase, if_true]
        by_cases hrem : L - a.used - getAlignedSize size > 0
        · left
          rw [if_pos hrem]
          simp [mapAssign]
          omega
        · right
          rw [if_neg hrem]
          exact ⟨rfl, by omega⟩
    · left
      rw [halloc, hfb]; simp [Allocator.allocScan, hfit]
  · left
    rw [halloc, hfb]; simp [Allocator.allocScan]

/-- Releasing the topmost region `[addr, used)` returns and joins it to the free
space above it. -/
theorem free_stack_step (L : Nat) (hL : L < SIZE_MOD) (a : Allocator) (addr size : Nat)
    (hptr : a.ptr = 0) (hused : a.used ≤ L) (htop : addr + getAlignedSize size = a.used)
    (hfb : a.freeBlocks = [(a.used, L - a.used)] ∨ (a.freeBlocks = [] ∧ a.used = L)) :
    a.free addr size =
      ({ a with freeBlocks := [(addr, L - addr)], used := addr }, Outcome.ok ()) := by
  have hM : SIZE_MOD = 2 ^ 64 := rfl
  have hb : (addr + getAlignedSize size) % SIZE_MOD = a.used := by
    rw [htop]; exact Nat.mod_eq_of_lt (by omega)
  have hnlt : ¬ a.used < addr := by omega
  rcases hfb with hfb | ⟨hfb, hfull⟩
  · have h1 : (a.used + (L - a.used)) % SIZE_MOD = L := by
      rw [Nat.add_sub_cancel' hused]; exact Nat.mod_eq_of_lt hL
    have h2 : (max L a.used + SIZE_MOD - addr) % SIZE_MOD = L - addr := by
      rw [Nat.max_eq_left hused, hM] at *; omega
    have h3 : (L + SIZE_MOD - (L - addr)) % SIZE_MOD = addr := by
      rw [hM] at *; omega
    simp [Allocator.free, IT_ASSERT, hptr, hb, hfb, hnlt, Allocator.freeFinish, freeMerge, h1, h2, h3,
      mapAssign]
  · have h2 : (a.used + SIZE_MOD - addr) % SIZE_MOD = L - addr := by
      rw [hM] at *; omega
    have h3 : (a.used + SIZE_MOD - (L - addr)) % SIZE_MOD = addr := by
      rw [hM] at *; omega
    simp [Allocator.free, IT_ASSERT, hptr, hb, hfb, Allocator.freeFinish, freeMerge, h2, h3, mapAssign]

theorem stacked_le (live : List (Nat × Nat)) :
    ∀ top, Stacked live top → ∀ r ∈ live, r.1 + getAlignedSize r.2 ≤ top := by
  induction live with
  | nil => intro top _ r hr; cases hr
  | cons hd below ih =>
    intro top h r hr
    obtain ⟨addr, size⟩ := hd
    obtain ⟨htop, hbelow⟩ := h
    rcases List.mem_cons.1 hr with rfl | hr
    · exact Nat.le_of_eq htop
    · have := ih addr hbelow r hr
      omega

theorem runStack_stacked (L : Nat) (hL : L < SIZE_MOD) (calls : List StackCall) :
    ∀ (a : Allocator) (live : List (Nat × Nat)), a.ptr = 0 → a.used ≤ L → a.used ≤ a.peak →
      (a.freeBlocks = [(a.used, L - a.used)] ∨ (a.freeBlocks = [] ∧ a.used = L)) →
      Stacked live a.used →
      Stacked (a.runStack live calls).2 (a.runStack live calls).1.used ∧
        (a.runStack live calls).1.used ≤ (a.runStack live calls).1.peak := by
  induction calls with
  | nil => intro a live _ _ hpeak _ hst; exact ⟨hst, hpeak⟩
  | cons c rest ih =>
    intro a live hptr hused hpeak hfb hst
    cases c with
    | alloc size =>
      rcases alloc_stack_step L hL a size hptr hused hfb with
        hoom | ⟨next, hres, hp, hu, hpk, hnu, hnfb⟩
      · simp only [Allocator.runStack, hoom]
        exact ih a live hptr hused hpeak hfb hst
      · simp only [Allocator.runStack, hres]
        exact ih next _ hp hu hpk hnfb ⟨hnu.symm, hst⟩
    | freeLast =>
      cases live with
      | nil =>
        simp only [Allocator.runStack]
        exact ih a [] hptr hused hpeak hfb hst
      | cons hd below =>
        obtain ⟨addr, size⟩ := hd
        obtain ⟨htop, hbelow⟩ := hst
        simp only [Allocator.runStack, free_stack_step L hL a addr size hptr hused htop hfb]
        exact ih _ below hptr (by show addr ≤ L; omega) (by show addr ≤ a.peak; omega)
          (Or.inl rfl) hbelow

/-- C5 (as amended): starting from `used = peak = 0` with the single free block
`[0, L)`, after any sequence of `alloc` calls and of frees that each release the
most recently allocated region still held, every region
`[addr, addr + alignedSize)` still held ends at or below `peak`, the number of
bytes `getPtr` requests. -/
theorem stack_regions_within_peak (L : Nat) (hL : L < SIZE_MOD) (calls : List StackCall) :
    ∀ r ∈ ((Allocator.planning L).runStack [] calls).2,
      r.1 + getAlignedSize r.2 ≤ ((Allocator.planning L).runStack [] calls).1.peak := by
  have h := runStack_stacked L hL calls (Allocator.planning L) [] rfl (Nat.zero_le _)
    (Nat.le_refl _) (Or.inl rfl) rfl
  intro r hr
  exact Nat.le_trans (stacked_le _ _ h.1 r hr) h.2

theorem stack_regions_within_peak_witness :
    8 + getAlignedSize 16 ≤ ((Allocator.planning 64).runStack []
      [StackCall.alloc 8, StackCall.alloc 3, StackCall.freeLast, StackCall.alloc 16]).1.peak :=
  stack_regions_within_peak 64 (by decide)
    [StackCall.alloc 8, StackCall.alloc 3, StackCall.freeLast, StackCall.alloc 16]
    (8, 16) (by decide)

/-- C7: from `used = 0` and the single free block `[0, L)`, for sizes
`s1, s2 >= 1` whose rounded sizes sum to at most `L`: `alloc s1` returns 0,
`alloc s2` returns the rounded `s1`, `free 0 s1` returns, and a further
`alloc s1` returns 0 again. -/
theorem alloc_reuses_freed_low_block (a : Allocator) (L s1 s2 : Nat) (hL : L < SIZE_MOD)
    (hptr : a.ptr = 0) (hused : a.used = 0) (hfb : a.freeBlocks = [(0, L)])
    (h1 : 1 ≤ s1) (h2 : 1 ≤ s2) (hsum : alignUp s1 + alignUp s2 ≤ L) :
    (a.alloc s1).2 = Outcome.ok 0 ∧
    ((a.alloc s1).1.alloc s2).2 = Outcome.ok (alignUp s1) ∧
    ((((a.alloc s1).1.alloc s2).1.free 0 s1).2 = Outcome.ok ()) ∧
    (((((a.alloc s1).1.alloc s2).1.free 0 s1).1.alloc s1).2 = Outcome.ok 0) := by
  have hb1 : 8 ≤ alignUp s1 := by unfold alignUp; omega
  have hb2 : 8 ≤ alignUp s2 := by unfold alignUp; omega
  have hs1 : s1 ≤ alignUp s1 := by unfold alignUp; omega
  have hs2 : s2 ≤ alignUp s2 := by unfold alignUp; omega
  have hM : SIZE_MOD = 2 ^ 64 := rfl
  have e1 : getAlignedSize s1 = alignUp s1 := getAlignedSize_eq_alignUp s1 h1 (by omega)
  have e2 : getAlignedSize s2 = alignUp s2 := getAlignedSize_eq_alignUp s2 h2 (by omega)
  have hm1 : alignUp s1 % SIZE_MOD = alignUp s1 := Nat.mod_eq_of_lt (by omega)
  have hfit1 : alignUp s1 ≤ L := by omega
  have hrem1 : L - alignUp s1 > 0 := by omega
  have r1 : a.alloc s1 = ((Allocator.mk (alignUp s1) (max a.peak (alignUp s1)) a.ptr
        [(alignUp s1, L - alignUp s1)]), Outcome.ok 0) := by
    simp [Allocator.alloc, IT_ASSERT, hptr, e1, hfb, Allocator.allocScan, hfit1, Allocator.takeBlock,
      mapErase, mapAssign, hused, hm1]
    omega
  have hfit2 : alignUp s2 ≤ L - alignUp s1 := by omega
  have hm2 : (alignUp s1 + alignUp s2) % SIZE_MOD = alignUp s1 + alignUp s2 :=
    Nat.mod_eq_of_lt (by omega)
  rw [r1]
  refine ⟨rfl, ?_⟩
  by_cases hrem2 : L - alignUp s1 - alignUp s2 > 0
  · have r2 : Allocator.alloc (Allocator.mk (alignUp s1) (max a.peak (alignUp s1)) a.ptr
        [(alignUp s1, L - alignUp s1)]) s2 =
        ((Allocator.mk (alignUp s1 + alignUp s2) (max (max a.peak (alignUp s1)) (alignUp s1 + alignUp s2)) a.ptr
        [(alignUp s1 + alignUp s2, L - alignUp s1 - alignUp s2)]),
          Outcome.ok (alignUp s1)) := by
      simp [Allocator.alloc, IT_ASSERT, hptr, e2, Allocator.allocScan, hfit2, Allocator.takeBlock,
        mapErase, mapAssign, hm2, hrem2]
    rw [r2]
    refine ⟨rfl, ?_⟩
    have hnle : ¬ alignUp s1 + alignUp s2 ≤ alignUp s1 := by omega
    have hlt : 0 < alignUp s1 + alignUp s2 := by omega
    have r3 : Allocator.free (Allocator.mk (alignUp s1 + alignUp s2) (max (max a.peak (alignUp s1)) (alignUp s1 + alignUp s2)) a.ptr
        [(alignUp s1 + alignUp s2, L - alignUp s1 - alignUp s2)]) 0 s1 =
        ((Allocator.mk (alignUp s2) (max (max a.peak (alignUp s1)) (alignUp s1 + alignUp s2)) a.ptr
        [(0, alignUp s1), (alignUp s1 + alignUp s2, L - alignUp s1 - alignUp s2)]),
          Outcome.ok ()) := by
      simp [Allocator.free, IT_ASSERT, hptr, e1, Allocator.freeFinish, freeMerge, hm1, hnle, mapAssign,
        hlt]
      rw [hM] at hL ⊢; omega
    rw [r3]
    refine ⟨rfl, ?_⟩
    simp [Allocator.alloc, IT_ASSERT, hptr, e1, Allocator.allocScan]
  · have r2 : Allocator.alloc (Allocator.mk (alignUp s1) (max a.peak (alignUp s1)) a.ptr
        [(alignUp s1, L - alignUp s1)]) s2 =
        ((Allocator.mk (alignUp s1 + alignUp s2) (max (max a.peak (alignUp s1)) (alignUp s1 + alignUp s2)) a.ptr
        []),
          Outcome.ok (alignUp s1)) := by
      simp [Allocator.alloc, IT_ASSERT, hptr, e2, Allocator.allocScan, hfit2, Allocator.takeBlock,
        mapErase, hm2, hrem2]
    rw [r2]
    refine ⟨rfl, ?_⟩
    have r3 : Allocator.free (Allocator.mk (alignUp s1 + alignUp s2) (max (max a.peak (alignUp s1)) (alignUp s1 + alignUp s2)) a.ptr
        []) 0 s1 =
        ((Allocator.mk (alignUp s2) (max (max a.peak (alignUp s1)) (alignUp s1 + alignUp s2)) a.ptr
        [(0, alignUp s1)]),
          Outcome.ok ()) := by
      simp [Allocator.free, IT_ASSERT, hptr, e1, Allocator.freeFinish, freeMerge, hm1, mapAssign]
      rw [hM] at hL ⊢; omega
    rw [r3]
    refine ⟨rfl, ?_⟩
    simp [Allocator.alloc, IT_ASSERT, hptr, e1, Allocator.allocScan]

theorem alloc_reuses_freed_low_block_witness :
    ((Allocator.planning 64).alloc 8).2 = Outcome.ok 0 ∧
    (((Allocator.planning 64).alloc 8).1.alloc 16).2 = Outcome.ok (alignUp 8) ∧
    (((((Allocator.planning 64).alloc 8).1.alloc 16).1.free 0 8).2 = Outcome.ok ()) ∧
    ((((((Allocator.planning 64).alloc 8).1.alloc 16).1.free 0 8).1.alloc 8).2 =
      Outcome.ok 0) :=
  alloc_reuses_freed_low_block (Allocator.planning 64) 64 8 16 (by decide) rfl rfl rfl
    (by decide) (by decide) (by decide)

theorem alloc_materialized (a : Allocator) (size : Nat) (h : a.ptr ≠ 0) :
    a.alloc size = (a, Outcome.assertionFailed) := by
  simp [Allocator.alloc, IT_ASSERT, h]

theorem free_materialized (a : Allocator) (addr size : Nat) (h : a.ptr ≠ 0) :
    a.free addr size = (a, Outcome.assertionFailed) := by
  simp [Allocator.free, IT_ASSERT, h]

theorem getPtr_materialized (rtAlloc : Nat → Nat) (a : Allocator) (h : a.ptr ≠ 0) :
    a.getPtr rtAlloc = (a, a.ptr) := by
  simp [Allocator.getPtr, h]

theorem run_materialized (rtAlloc : Nat → Nat) (a : Allocator) (h : a.ptr ≠ 0)
    (calls : List Call) : Allocator.run rtAlloc a calls = a := by
  induction calls with
  | nil => rfl
  | cons c rest ih =>
    cases c with
    | alloc size => simp [Allocator.run, alloc_materialized a size h, ih]
    | free addr size => simp [Allocator.run, free_materialized a addr size h, ih]
    | getPtr => simp [Allocator.run, getPtr_materialized rtAlloc a h, ih]

theorem alloc_planning (a : Allocator) (size : Nat) (h : a.ptr = 0) :
    (a.alloc size).2 ≠ Outcome.assertionFailed ∧ (a.alloc size).1.ptr = 0 := by
  have halloc : a.alloc size = a.allocScan (getAlignedSize size) a.freeBlocks := by
    simp [Allocator.alloc, IT_ASSERT, h]
  rw [halloc]
  rcases allocScan_cases a (getAlignedSize size) a.freeBlocks with
    ⟨_, hres⟩ | ⟨pre, addr, len, post, _, _, _, hres⟩
  · rw [hres]; exact ⟨by simp, h⟩
  · rw [hres]; exact ⟨by simp, by simpa [Allocator.takeBlock] using h⟩

theorem free_planning (a : Allocator) (addr size : Nat) (h : a.ptr = 0) :
    (a.free addr size).2 ≠ Outcome.assertionFailed ∧ (a.free addr size).1.ptr = 0 := by
  unfold Allocator.free IT_ASSERT
  simp only [h, beq_self_eq_true, if_true]
  split
  · exact ⟨by simp [Allocator.freeFinish], by simpa [Allocator.freeFinish] using h⟩
  · exact ⟨by simp, h⟩
  · split
    · exact ⟨by simp [Allocator.freeFinish], by simpa [Allocator.freeFinish] using h⟩
    · exact ⟨by simp [Allocator.freeFinish], by simpa [Allocator.freeFinish] using h⟩

theorem run_planning (rtAlloc : Nat → Nat) (calls : List Call) :
    ∀ a : Allocator, a.ptr = 0 → (∀ c ∈ calls, c ≠ Call.getPtr) →
      (Allocator.run rtAlloc a calls).ptr = 0 := by
  induction calls with
  | nil => intro a h _; exact h
  | cons c rest ih =>
    intro a h hc
    have hrest : ∀ c ∈ rest, c ≠ Call.getPtr := fun c hm => hc c (List.mem_cons_of_mem _ hm)
    cases c with
    | alloc size => exact ih _ (alloc_planning a size h).2 hrest
    | free addr size => exact ih _ (free_planning a addr size h).2 hrest
    | getPtr => exact absurd rfl (hc Call.getPtr (by simp))

/-- C8: once `getPtr` has returned a non-null handle, whatever calls follow leave
the allocator exactly as `getPtr` left it, and every `alloc` and every `free`
made then fails its assertion without changing the state; and from a
constructed allocator (`ptr` null), as long as `getPtr` has not been called, the
assertion of `alloc` and of `free` never fails. -/
theorem phase_discipline (rtAlloc : Nat → Nat) (a : Allocator) (calls : List Call) :
    ((a.getPtr rtAlloc).2 ≠ 0 →
      Allocator.run rtAlloc (a.getPtr rtAlloc).1 calls = (a.getPtr rtAlloc).1 ∧
      (∀ size, (Allocator.run rtAlloc (a.getPtr rtAlloc).1 calls).alloc size =
        ((a.getPtr rtAlloc).1, Outcome.assertionFailed)) ∧
      (∀ addr size, (Allocator.run rtAlloc (a.getPtr rtAlloc).1 calls).free addr size =
        ((a.getPtr rtAlloc).1, Outcome.assertionFailed))) ∧
    (a.ptr = 0 → (∀ c ∈ calls, c ≠ Call.getPtr) →
      (∀ size, ((Allocator.run rtAlloc a calls).alloc size).2 ≠ Outcome.assertionFailed) ∧
      (∀ addr size,
        ((Allocator.run rtAlloc a calls).free addr size).2 ≠ Outcome.assertionFailed)) := by
  constructor
  · intro hnz
    have hptr : (a.getPtr rtAlloc).1.ptr ≠ 0 := by
      by_cases h0 : a.ptr = 0
      · simp [Allocator.getPtr, h0] at hnz ⊢
        exact hnz
      · simp [Allocator.getPtr, h0]
    have hrun := run_materialized rtAlloc (a.getPtr rtAlloc).1 hptr calls
    rw [hrun]
    exact ⟨rfl, fun size => alloc_materialized _ size hptr,
      fun addr size => free_materialized _ addr size hptr⟩
  · intro h0 hc
    have hp := run_planning rtAlloc calls a h0 hc
    exact ⟨fun size => (alloc_planning _ size hp).1,
      fun addr size => (free_planning _ addr size hp).1⟩

theorem phase_discipline_witness :
    (Allocator.run (fun _ => 4096) ((Allocator.planning 64).getPtr (fun _ => 4096)).1
        [Call.alloc 8, Call.free 0 8] = ((Allocator.planning 64).getPtr (fun _ => 4096)).1 ∧
      (∀ size, (Allocator.run (fun _ => 4096) ((Allocator.planning 64).getPtr (fun _ => 4096)).1
          [Call.alloc 8, Call.free 0 8]).alloc size =
        (((Allocator.planning 64).getPtr (fun _ => 4096)).1, Outcome.assertionFailed)) ∧
      (∀ addr size,
        (Allocator.run (fun _ => 4096) ((Allocator.planning 64).getPtr (fun _ => 4096)).1
          [Call.alloc 8, Call.free 0 8]).free addr size =
        (((Allocator.planning 64).getPtr (fun _ => 4096)).1, Outcome.assertionFailed))) ∧
    ((∀ size, ((Allocator.run (fun _ => 4096) (Allocator.planning 64)
        [Call.alloc 8, Call.free 0 8]).alloc size).2 ≠ Outcome.assertionFailed) ∧
      (∀ addr size, ((Allocator.run (fun _ => 4096) (Allocator.planning 64)
        [Call.alloc 8, Call.free 0 8]).free addr size).2 ≠ Outcome.assertionFailed)) :=
  ⟨(phase_discipline (fun _ => 4096) (Allocator.planning 64) [Call.alloc 8, Call.free 0 8]).1
      (by decide),
    (phase_discipline (fun _ => 4096) (Allocator.planning 64) [Call.alloc 8, Call.free 0 8]).2
      rfl (by decide)⟩

/-! ## Topological sort: lemmas -/

theorem ready_iff (g : GraphObj) (flags : List Nat) (op : Nat) :
    g.ready flags op = true ↔
      op ∉ flags ∧ ∀ t ∈ g.inputs op, ∀ src, g.source t = some src → src ∈ flags := by
  unfold GraphObj.ready
  simp only [Bool.and_eq_true, Bool.not_eq_true', decide_eq_false_iff_not, List.all_eq_true]
  constructor
  · rintro ⟨h1, h2⟩
    refine ⟨h1, ?_⟩
    intro t ht src hsrc
    have := h2 t ht
    simpa [hsrc] using this
  · rintro ⟨h1, h2⟩
    refine ⟨h1, ?_⟩
    intro t ht
    cases hsrc : g.source t with
    | none => rfl
    | some src => simpa using h2 t ht src hsrc

theorem topoInv_place (g : GraphObj) (sorted flags : List Nat) (op : Nat)
    (hinv : g.TopoInv sorted flags) (hop : op ∈ g.ops) (hready : g.ready flags op = true) :
    g.TopoInv (sorted ++ [op]) (op :: flags) := by
  obtain ⟨hflags, hnd, hsub, hord⟩ := hinv
  obtain ⟨hnot, hsrcs⟩ := (ready_iff g flags op).1 hready
  refine ⟨?_, ?_, ?_, ?_⟩
  · intro x
    simp only [List.mem_cons, List.mem_append, List.mem_singleton, hflags x]
    tauto
  · rw [List.nodup_append]
    refine ⟨hnd, List.nodup_singleton op, ?_⟩
    intro x hx hx1
    rw [List.mem_singleton] at hx1
    subst hx1
    exact hnot ((hflags x).2 hx)
  · intro x hx
    rcases List.mem_append.1 hx with hx | hx
    · exact hsub x hx
    · rw [List.mem_singleton] at hx; subst hx; exact hop
  · unfold GraphObj.Ordered
    intro j x hj t ht src hsrc
    have hord := hord
    unfold GraphObj.Ordered at hord
    by_cases hlt : j < sorted.length
    · rw [List.getElem?_append_left hlt] at hj
      obtain ⟨i, hij, hi⟩ := hord j x hj t ht src hsrc
      refine ⟨i, hij, ?_⟩
      rw [List.getElem?_append_left (by omega)]
      exact hi
    · have hge : sorted.length ≤ j := Nat.le_of_not_lt hlt
      rw [List.getElem?_append_right hge] at hj
      have hj0 : j - sorted.length = 0 := by
        by_contra hne
        have : 1 ≤ j - sorted.length := by omega
        have hnone : [op][j - sorted.length]? = none :=
          List.getElem?_eq_none (by simpa using this)
        rw [hnone] at hj
        cases hj
      rw [hj0] at hj
      simp only [List.getElem?_cons_zero, Option.some.injEq] at hj
      subst hj
      have hmem : src ∈ sorted := (hflags src).1 (hsrcs t ht src hsrc)
      obtain ⟨i, hi⟩ := List.mem_iff_getElem?.1 hmem
      have hil : i < sorted.length := by
        obtain ⟨h, _⟩ := List.getElem?_eq_some.1 hi
        exact h
      refine ⟨i, by omega, ?_⟩
      rw [List.getElem?_append_left hil]
      exact hi

theorem topoPass_inv (g : GraphObj) (l : List Nat) :
    ∀ (sorted flags : List Nat) (modified : Bool), (∀ x ∈ l, x ∈ g.ops) →
      g.TopoInv sorted flags →
      g.TopoInv (g.topoPass l (sorted, flags, modified)).1
        (g.topoPass l (sorted, flags, modified)).2.1 := by
  induction l with
  | nil => intro sorted flags modified _ hinv; exact hinv
  | cons op rest ih =>
    intro sorted flags modified hl hinv
    have hrest : ∀ x ∈ rest, x ∈ g.ops := fun x hx => hl x (List.mem_cons_of_mem _ hx)
    by_cases hready : g.ready flags op = true
    · simp only [GraphObj.topoPass, hready, if_true]
      exact ih _ _ _ hrest (topoInv_place g sorted flags op hinv (hl op (by simp)) hready)
    · simp only [GraphObj.topoPass, hready]
      exact ih _ _ _ hrest hinv

theorem topoPass_length_le (g : GraphObj) (l : List Nat) :
    ∀ (sorted flags : List Nat) (modified : Bool),
      sorted.length ≤ (g.topoPass l (sorted, flags, modified)).1.length := by
  induction l with
  | nil => intro sorted flags modified; exact Nat.le_refl _
  | cons op rest ih =>
    intro sorted flags modified
    by_cases hready : g.ready flags op = true
    · simp only [GraphObj.topoPass, hready, if_true]
      have := ih (sorted ++ [op]) (op :: flags) true
      simp only [List.length_append, List.length_singleton] at this
      omega
    · simp only [GraphObj.topoPass, hready]
      exact ih sorted flags modified

/-- A pass that reports `modified` has made `sorted` longer. -/
theorem topoPass_modified (g : GraphObj) (l : List Nat) :
    ∀ (sorted flags : List Nat),
      (g.topoPass l (sorted, flags, false)).2.2 = true →
      sorted.length < (g.topoPass l (sorted, flags, false)).1.length := by
  induction l with
  | nil => intro sorted flags h; simp [GraphObj.topoPass] at h
  | cons op rest ih =>
    intro sorted flags h
    by_cases hready : g.ready flags op = true
    · simp only [GraphObj.topoPass, hready, if_true] at h ⊢
      have := topoPass_length_le g rest (sorted ++ [op]) (op :: flags) true
      simp only [List.length_append, List.length_singleton] at this
      omega
    · simp only [GraphObj.topoPass, hready] at h ⊢
      exact ih sorted flags h

theorem topoPass_keeps_modified (g : GraphObj) (l : List Nat) :
    ∀ (sorted flags : List Nat), (g.topoPass l (sorted, flags, true)).2.2 = true := by
  induction l with
  | nil => intro sorted flags; rfl
  | cons op rest ih =>
    intro sorted flags
    by_cases hready : g.ready flags op = true
    · simp only [GraphObj.topoPass, hready, if_true]; exact ih _ _
    · simp only [GraphObj.topoPass, hready]; exact ih _ _

/-- A pass that does not report `modified` found no operator ready. -/
theorem topoPass_unmodified (g : GraphObj) (l : List Nat) :
    ∀ (sorted flags : List Nat),
      (g.topoPass l (sorted, flags, false)).2.2 = false →
      ∀ op ∈ l, g.ready flags op = false := by
  induction l with
  | nil => intro sorted flags _ op hop; cases hop
  | cons hd rest ih =>
    intro sorted flags h op hop
    by_cases hready : g.ready flags hd = true
    · simp only [GraphObj.topoPass, hready, if_true] at h
      rw [topoPass_keeps_modified] at h
      cases h
    · simp only [GraphObj.topoPass, hready] at h
      rcases List.mem_cons.1 hop with rfl | hop
      · simpa using hready
      · exact ih sorted flags h op hop

/-- The loop returns within `ops.size()` passes. -/
theorem topoLoop_returns (g : GraphObj) (fuel : Nat) :
    ∀ (sorted flags : List Nat), g.ops.length ≤ fuel + sorted.length →
      ∃ r, g.topoLoop fuel sorted flags = some r := by
  induction fuel with
  | zero =>
    intro sorted flags h
    unfold GraphObj.topoLoop
    have : ¬ sorted.length < g.ops.length := by omega
    simp [this]
  | succ n ih =>
    intro sorted flags h
    unfold GraphObj.topoLoop
    by_cases hlt : sorted.length < g.ops.length
    · simp only [hlt, if_true]
      by_cases hmod : (g.topoPass g.ops (sorted, flags, false)).2.2 = true
      · simp only [hmod, if_true]
        apply ih
        have := topoPass_modified g g.ops sorted flags hmod
        omega
      · simp only [hmod]
        exact ⟨none, rfl⟩
    · simp [hlt]

/-- Allowing more passes does not change what the loop returns. -/
theorem topoLoop_more_fuel (g : GraphObj) (fuel : Nat) :
    ∀ (sorted flags : List Nat) (r : Option (List Nat)),
      g.topoLoop fuel sorted flags = some r → g.topoLoop (fuel + 1) sorted flags = some r := by
  induction fuel with
  | zero =>
    intro sorted flags r h
    unfold GraphObj.topoLoop at h ⊢
    by_cases hlt : sorted.length < g.ops.length
    · simp [hlt] at h
    · simpa [hlt] using h
  | succ n ih =>
    intro sorted flags r h
    rw [GraphObj.topoLoop] at h ⊢
    by_cases hlt : sorted.length < g.ops.length
    · simp only [hlt, if_true] at h ⊢
      by_cases hmod : (g.topoPass g.ops (sorted, flags, false)).2.2 = true
      · simp only [hmod, if_true] at h ⊢
        exact ih _ _ r h
      · simp only [hmod] at h ⊢
        exact h
    · simpa [hlt] using h

/-- When the loop is left normally, `sorted` holds at least `ops.size()`
operators and satisfies the invariant. -/
theorem topoLoop_sorted (g : GraphObj) (fuel : Nat) :
    ∀ (sorted flags l : List Nat), g.TopoInv sorted flags →
      g.topoLoop fuel sorted flags = some (some l) →
      g.ops.length ≤ l.length ∧ l.Nodup ∧ (∀ x ∈ l, x ∈ g.ops) ∧ g.Ordered l := by
  induction fuel with
  | zero =>
    intro sorted flags l hinv h
    unfold GraphObj.topoLoop at h
    by_cases hlt : sorted.length < g.ops.length
    · simp [hlt] at h
    · simp only [hlt, if_false, Option.some.injEq] at h
      subst h
      exact ⟨by omega, hinv.2.1, hinv.2.2.1, hinv.2.2.2⟩
  | succ n ih =>
    intro sorted flags l hinv h
    unfold GraphObj.topoLoop at h
    by_cases hlt : sorted.length < g.ops.length
    · simp only [hlt, if_true] at h
      by_cases hmod : (g.topoPass g.ops (sorted, flags, false)).2.2 = true
      · simp only [hmod, if_true] at h
        exact ih _ _ l (topoPass_inv g g.ops sorted flags false (fun x hx => hx) hinv) h
      · simp [hmod] at h
    · simp only [hlt, if_false, Option.some.injEq] at h
      subst h
      exact ⟨by omega, hinv.2.1, hinv.2.2.1, hinv.2.2.2⟩

/-- When the loop returns `false`, some pass started with operators still to
place and found none of them ready. -/
theorem topoLoop_stuck (g : GraphObj) (fuel : Nat) :
    ∀ (sorted flags : List Nat), g.TopoInv sorted flags →
      g.topoLoop fuel sorted flags = some none →
      ∃ s f, g.TopoInv s f ∧ s.length < g.ops.length ∧ ∀ op ∈ g.ops, g.ready f op = false := by
  induction fuel with
  | zero =>
    intro sorted flags hinv h
    unfold GraphObj.topoLoop at h
    by_cases hlt : sorted.length < g.ops.length
    · simp [hlt] at h
    · simp [hlt] at h
  | succ n ih =>
    intro sorted flags hinv h
    unfold GraphObj.topoLoop at h
    by_cases hlt : sorted.length < g.ops.length
    · simp only [hlt, if_true] at h
      by_cases hmod : (g.topoPass g.ops (sorted, flags, false)).2.2 = true
      · simp only [hmod, if_true] at h
        exact ih _ _ (topoPass_inv g g.ops sorted flags false (fun x hx => hx) hinv) h
      · have hfalse : (g.topoPass g.ops (sorted, flags, false)).2.2 = false := by
          simpa using hmod
        exact ⟨sorted, flags, hinv, hlt, topoPass_unmodified g g.ops sorted flags hfalse⟩
    · simp [hlt] at h

theorem topoInv_nil (g : GraphObj) : g.TopoInv [] [] := by
  refine ⟨fun x => Iff.rfl, List.nodup_nil, ?_, ?_⟩
  · intro x hx; cases hx
  · unfold GraphObj.Ordered
    intro j op hj; simp at hj

/-- An order that respects the producer-to-consumer relation rules out a cycle. -/
theorem acyclic_of_ordered (g : GraphObj) (l : List Nat) (hord : g.Ordered l)
    (hall : ∀ x ∈ g.ops, x ∈ l) : g.Acyclic := by
  have hstep : ∀ a b, Relation.TransGen g.dep a b →
      ∀ j : Nat, l[j]? = some b → ∃ i : Nat, i < j ∧ l[i]? = some a := by
    intro a b hab
    induction hab with
    | single h =>
      obtain ⟨_, _, t, ht, hsrc⟩ := h
      intro j hj
      exact hord j _ hj t ht a hsrc
    | tail _ h ih =>
      obtain ⟨_, _, t, ht, hsrc⟩ := h
      intro j hj
      obtain ⟨i, hij, hi⟩ := hord j _ hj t ht _ hsrc
      obtain ⟨k, hki, hk⟩ := ih i hi
      exact ⟨k, by omega, hk⟩
  intro a haa
  have hmem : a ∈ g.ops := by
    cases haa with
    | single h => exact h.1
    | tail _ h => exact h.2.1
  have hnone : ∀ j : Nat, l[j]? ≠ some a := by
    intro j
    induction j using Nat.strong_induction_on with
    | _ j ih =>
      intro hj
      obtain ⟨i, hij, hi⟩ := hstep a a haa j hj
      exact ih i hij hi
  obtain ⟨j, hj⟩ := List.mem_iff_getElem?.1 (hall a hmem)
  exact hnone j hj

/-- A pass that finds no operator ready while one is still to be placed shows a
cycle, when operators are listed once and sources belong to the graph. -/
theorem cyclic_of_stuck (g : GraphObj) (hnd : g.ops.Nodup)
    (hsrc : ∀ op ∈ g.ops, ∀ t ∈ g.inputs op, ∀ src, g.source t = some src → src ∈ g.ops)
    (s f : List Nat) (hinv : g.TopoInv s f) (hlen : s.length < g.ops.length)
    (hstuck : ∀ op ∈ g.ops, g.ready f op = false) : ¬ g.Acyclic := by
  intro hac
  obtain ⟨hflags, _, _, _⟩ := hinv
  have hex : ∃ op ∈ g.ops, op ∉ f := by
    by_contra hno
    push_neg at hno
    have hsub : g.ops ⊆ s := fun x hx => (hflags x).1 (hno x hx)
    have := (List.Nodup.subperm hnd hsub).length_le
    omega
  have hpred : ∀ op ∈ g.ops, op ∉ f → ∃ src, src ∈ g.ops ∧ src ∉ f ∧ g.dep src op := by
    intro op hop hnf
    have hnr := hstuck op hop
    have hnot : ¬ (op ∉ f ∧ ∀ t ∈ g.inputs op, ∀ src, g.source t = some src → src ∈ f) := by
      intro h
      rw [(ready_iff g f op).2 h] at hnr
      cases hnr
    have : ∃ t ∈ g.inputs op, ∃ src, g.source t = some src ∧ src ∉ f := by
      by_contra hno
      push_neg at hno
      exact hnot ⟨hnf, hno⟩
    obtain ⟨t, ht, src, hs, hsf⟩ := this
    exact ⟨src, hsrc op hop t ht src hs, hsf, hsrc op hop t ht src hs, hop, t, ht, hs⟩
  let R : {x // x ∈ g.ops} → {x // x ∈ g.ops} → Prop :=
    fun a b => Relation.TransGen g.dep a.1 b.1
  have hfin : Finite {x // x ∈ g.ops} := (List.finite_toSet g.ops).to_subtype
  have htrans : IsTrans {x // x ∈ g.ops} R := ⟨fun a b c hab hbc => Relation.TransGen.trans hab hbc⟩
  have hirr : IsIrrefl {x // x ∈ g.ops} R := ⟨fun a haa => hac a.1 haa⟩
  have hwf : WellFounded R := Finite.wellFounded_of_trans_of_irrefl R
  obtain ⟨op0, hop0, hnf0⟩ := hex
  obtain ⟨m, hm, hmin⟩ := hwf.has_min {x | x.1 ∉ f} ⟨⟨op0, hop0⟩, hnf0⟩
  obtain ⟨src, hsops, hsf, hdep⟩ := hpred m.1 m.2 hm
  exact hmin ⟨src, hsops⟩ hsf (Relation.TransGen.single hdep)

/-- C9: when `topo_sort`, entered with the `sorted` flag false, returns true, the
new operator list is a permutation of the old one and every operator stands in
it strictly after the source operator of each of its input tensors that has a
source. -/
theorem topo_sort_sound (g next : GraphObj) (hs : g.sorted = false)
    (h : g.topo_sort = some (next, true)) :
    next.ops.Perm g.ops ∧ next.ops.Nodup ∧
    (∀ (j op : Nat), next.ops[j]? = some op → ∀ t ∈ g.inputs op, ∀ src,
      g.source t = some src → ∃ i : Nat, i < j ∧ next.ops[i]? = some src) ∧
    next.inputs = g.inputs ∧ next.source = g.source ∧ next.sorted = true := by
  unfold GraphObj.topo_sort at h
  simp only [hs, Bool.false_eq_true, if_false] at h
  cases hloop : g.topoLoop g.ops.length [] [] with
  | none => rw [hloop] at h; cases h
  | some r =>
    cases r with
    | none => rw [hloop] at h; simp at h
    | some l =>
      rw [hloop] at h
      simp only [Option.some.injEq, Prod.mk.injEq, and_true] at h
      subst h
      obtain ⟨hlen, hnd, hsub, hord⟩ := topoLoop_sorted g g.ops.length [] [] l (topoInv_nil g) hloop
      exact ⟨(List.Nodup.subperm hnd hsub).perm_of_length_le hlen, hnd, hord, rfl, rfl, rfl⟩

theorem topo_sort_sound_witness :
    [1, 2, 3].Perm chainGraph.ops ∧ [1, 2, 3].Nodup ∧
    (∀ (j op : Nat), [1, 2, 3][j]? = some op → ∀ t ∈ chainGraph.inputs op, ∀ src,
      chainGraph.source t = some src → ∃ i : Nat, i < j ∧ [1, 2, 3][i]? = some src) ∧
    chainGraph.inputs = chainGraph.inputs ∧ chainGraph.source = chainGraph.source ∧
    true = true :=
  topo_sort_sound chainGraph { chainGraph with ops := [1, 2, 3], sorted := true } rfl rfl

/-- C10: for a graph whose operator list has no duplicates and holds the source
of every input tensor that has one, `topo_sort` (entered with the `sorted` flag
false) returns; it returns true exactly when the producer-to-consumer relation
among the operators has no cycle; and when it returns false the graph, its
operator list included, is as it was. -/
theorem topo_sort_terminates_iff_acyclic (g : GraphObj) (hs : g.sorted = false)
    (hnd : g.ops.Nodup)
    (hsrc : ∀ op ∈ g.ops, ∀ t ∈ g.inputs op, ∀ src, g.source t = some src → src ∈ g.ops) :
    ∃ r, g.topo_sort = some r ∧ (r.2 = true ↔ g.Acyclic) ∧ (r.2 = false → r.1 = g) := by
  obtain ⟨res, hloop⟩ := topoLoop_returns g g.ops.length [] [] (by omega)
  unfold GraphObj.topo_sort
  simp only [hs, Bool.false_eq_true, if_false, hloop]
  cases res with
  | none =>
    refine ⟨(g, false), rfl, ?_, fun _ => rfl⟩
    obtain ⟨s, f, hinv, hlen, hstuck⟩ := topoLoop_stuck g g.ops.length [] [] (topoInv_nil g) hloop
    have hcyc := cyclic_of_stuck g hnd hsrc s f hinv hlen hstuck
    constructor
    · intro h; cases h
    · intro h; exact absurd h hcyc
  | some l =>
    refine ⟨({ g with ops := l, sorted := true }, true), rfl, ?_, ?_⟩
    · obtain ⟨hlen, hndl, hsub, hord⟩ :=
        topoLoop_sorted g g.ops.length [] [] l (topoInv_nil g) hloop
      have hperm : l.Perm g.ops := (List.Nodup.subperm hndl hsub).perm_of_length_le hlen
      exact ⟨fun _ => acyclic_of_ordered g l hord (fun x hx => hperm.mem_iff.2 hx), fun _ => rfl⟩
    · intro h; cases h

theorem topo_sort_terminates_iff_acyclic_witness :
    ∃ r, cycleGraph.topo_sort = some r ∧ (r.2 = true ↔ cycleGraph.Acyclic) ∧
      (r.2 = false → r.1 = cycleGraph) :=
  topo_sort_terminates_iff_acyclic cycleGraph rfl (by decide) (by decide)

/-! ## MatMul shape inference: lemmas and theorems -/

theorem exists_last2 (A : Shape) (h : 2 ≤ A.length) : ∃ pre x y, A = pre ++ [x, y] := by
  have hrev : A = A.reverse.reverse := (List.reverse_reverse A).symm
  cases hr : A.reverse with
  | nil =>
    have : A.reverse.length = 0 := by rw [hr]; rfl
    rw [List.length_reverse] at this
    omega
  | cons y tl =>
    cases tl with
    | nil =>
      have : A.reverse.length = 1 := by rw [hr]; rfl
      rw [List.length_reverse] at this
      omega
    | cons x rest =>
      refine ⟨rest.reverse, x, y, ?_⟩
      rw [hrev, hr]
      simp

theorem fromEnd_zero (pre : Shape) (x y : Int) : fromEnd (pre ++ [x, y]) 0 = y := by
  simp [fromEnd]

theorem fromEnd_one (pre : Shape) (x y : Int) : fromEnd (pre ++ [x, y]) 1 = x := by
  simp [fromEnd]

theorem take_batch (pre : Shape) (x y : Int) :
    (pre ++ [x, y]).take ((pre ++ [x, y]).length - 2) = pre := by
  simp

theorem swapLast2_append (pre : Shape) (x y : Int) :
    swapLast2 (pre ++ [x, y]) = pre ++ [y, x] := by
  simp [swapLast2]

theorem getD_last (pre : Shape) (x y : Int) :
    (pre ++ [x, y]).getD ((pre ++ [x, y]).length - 1) 0 = y := by
  have hlen : (pre ++ [x, y]).length - 1 = pre.length + 1 := by simp
  rw [hlen, List.getD_eq_getElem?_getD, List.getElem?_append_right (by omega)]
  simp

theorem getD_before_last (pre : Shape) (x y : Int) :
    (pre ++ [x, y]).getD ((pre ++ [x, y]).length - 2) 0 = x := by
  have hlen : (pre ++ [x, y]).length - 2 = pre.length := by simp
  rw [hlen, List.getD_eq_getElem?_getD, List.getElem?_append_right (by omega)]
  simp

/-- What `inferShape` does on shapes of rank at least 2, written with the last
two dimensions of each shape made explicit. -/
theorem inferShape_append (preA preB : Shape) (a1 a2 b1 b2 : Int) (transA transB : Bool) :
    MatmulObj.inferShape (preA ++ [a1, a2]) (preB ++ [b1, b2]) transA transB =
      (infer_broadcast preA preB).bind (fun ret =>
        if (if transA then a1 else a2) = (if transB then b2 else b1) then
          Outcome.ok { shapes := [ret ++ [if transA then a2 else a1, if transB then b1 else b2]],
                       m := if transA then a2 else a1,
                       n := if transB then b1 else b2,
                       k := if transA then a1 else a2 }
        else Outcome.assertionFailed) := by
  unfold MatmulObj.inferShape
  have hA : ¬ (preA ++ [a1, a2]).length < 2 := by simp
  have hB : ¬ (preB ++ [b1, b2]).length < 2 := by simp
  simp only [hA, hB, or_self, if_false, take_batch, fromEnd_zero, fromEnd_one]

/-- C14: for shapes `A` and `B` of rank at least 2 whose batch dimensions
broadcast to `batch`, and all flags: when the contracted dimension of `A` (its
last axis, or its second-to-last with `transA`) equals that of `B` (its
second-to-last axis, or its last with `transB`), `inferShape` returns the single
shape `batch ++ [m, n]`, `m` and `n` being the other trailing dimension of `A`
and of `B`; when they differ it fails and returns no shape. -/
theorem inferShape_spec (A B batch : Shape) (transA transB : Bool)
    (hA : 2 ≤ A.length) (hB : 2 ≤ B.length)
    (hbatch : infer_broadcast (A.take (A.length - 2)) (B.take (B.length - 2)) =
      Outcome.ok batch) :
    ((if transA then A.getD (A.length - 2) 0 else A.getD (A.length - 1) 0) =
        (if transB then B.getD (B.length - 1) 0 else B.getD (B.length - 2) 0) →
      ∃ r, MatmulObj.inferShape A B transA transB = Outcome.ok r ∧
        r.shapes = [batch ++
          [if transA then A.getD (A.length - 1) 0 else A.getD (A.length - 2) 0,
           if transB then B.getD (B.length - 2) 0 else B.getD (B.length - 1) 0]]) ∧
    ((if transA then A.getD (A.length - 2) 0 else A.getD (A.length - 1) 0) ≠
        (if transB then B.getD (B.length - 1) 0 else B.getD (B.length - 2) 0) →
      MatmulObj.inferShape A B transA transB = Outcome.assertionFailed) := by
  obtain ⟨preA, a1, a2, rfl⟩ := exists_last2 A hA
  obtain ⟨preB, b1, b2, rfl⟩ := exists_last2 B hB
  rw [take_batch, take_batch] at hbatch
  simp only [getD_last, getD_before_last, inferShape_append, hbatch, Outcome.bind]
  constructor
  · intro hk
    rw [if_pos hk]
    exact ⟨_, rfl, rfl⟩
  · intro hk
    rw [if_neg hk]

theorem inferShape_spec_witness :
    ((if false = true then ([2, 3, 4] : Shape).getD (([2, 3, 4] : Shape).length - 2) 0
        else ([2, 3, 4] : Shape).getD (([2, 3, 4] : Shape).length - 1) 0) =
        (if false = true then ([2, 4, 5] : Shape).getD (([2, 4, 5] : Shape).length - 1) 0
          else ([2, 4, 5] : Shape).getD (([2, 4, 5] : Shape).length - 2) 0) →
      ∃ r, MatmulObj.inferShape [2, 3, 4] [2, 4, 5] false false = Outcome.ok r ∧
        r.shapes = [[2] ++
          [if false = true then ([2, 3, 4] : Shape).getD (([2, 3, 4] : Shape).length - 1) 0
            else ([2, 3, 4] : Shape).getD (([2, 3, 4] : Shape).length - 2) 0,
           if false = true then ([2, 4, 5] : Shape).getD (([2, 4, 5] : Shape).length - 2) 0
            else ([2, 4, 5] : Shape).getD (([2, 4, 5] : Shape).length - 1) 0]]) ∧
    ((if false = true then ([2, 3, 4] : Shape).getD (([2, 3, 4] : Shape).length - 2) 0
        else ([2, 3, 4] : Shape).getD (([2, 3, 4] : Shape).length - 1) 0) ≠
        (if false = true then ([2, 4, 5] : Shape).getD (([2, 4, 5] : Shape).length - 1) 0
          else ([2, 4, 5] : Shape).getD (([2, 4, 5] : Shape).length - 2) 0) →
      MatmulObj.inferShape [2, 3, 4] [2, 4, 5] false false = Outcome.assertionFailed) :=
  inferShape_spec [2, 3, 4] [2, 4, 5] [2] false false (by decide) (by decide) (by decide)

/-- C15 (as stated) fails: with `A = [3, 4]`, `transA = true`, `B = [4, 5]` and
`transB = false` the contracted dimensions are 3 (the second-to-last axis of
`A`) and 4 (the second-to-last axis of `B`), so `IT_ASSERT(kA == kB)` fails and
no shape is returned. -/
theorem inferShape_transA_3_4_fails :
    fromEnd [3, 4] 1 = 3 ∧ fromEnd [4, 5] 1 = 4 ∧
    MatmulObj.inferShape [3, 4] [4, 5] true false = Outcome.assertionFailed := by
  decide

/-- C15 (as amended): with `A` of shape `[4, 3]`, `transA = true`, `B` of shape
`[4, 5]` and `transB = false`, `inferShape` succeeds and returns the single
output shape `[3, 5]`. -/
theorem inferShape_transA_4_3 :
    MatmulObj.inferShape [4, 3] [4, 5] true false =
      Outcome.ok { shapes := [[3, 5]], m := 3, n := 5, k := 4 } := by
  decide

/-- C20: for shapes of rank at least 2 and all flags, `inferShape` gives the
same result (the same shapes and members, or the same failure) on `A` with its
last two dimensions exchanged and `transA` negated as on `A` and `transA`, and
likewise on `B` with its last two dimensions exchanged and `transB` negated. -/
theorem inferShape_swap_invariant (A B : Shape) (transA transB : Bool)
    (hA : 2 ≤ A.length) (hB : 2 ≤ B.length) :
    MatmulObj.inferShape (swapLast2 A) B (!transA) transB =
      MatmulObj.inferShape A B transA transB ∧
    MatmulObj.inferShape A (swapLast2 B) transA (!transB) =
      MatmulObj.inferShape A B transA transB := by
  obtain ⟨preA, a1, a2, rfl⟩ := exists_last2 A hA
  obtain ⟨preB, b1, b2, rfl⟩ := exists_last2 B hB
  simp only [swapLast2_append, inferShape_append]
  cases transA <;> cases transB <;> simp

theorem inferShape_swap_invariant_witness :
    MatmulObj.inferShape (swapLast2 [2, 4, 3]) [2, 4, 5] (!true) false =
      MatmulObj.inferShape [2, 4, 3] [2, 4, 5] true false ∧
    MatmulObj.inferShape [2, 4, 3] (swapLast2 [2, 4, 5]) true (!false) =
      MatmulObj.inferShape [2, 4, 3] [2, 4, 5] true false :=
  inferShape_swap_invariant [2, 4, 3] [2, 4, 5] true false (by decide) (by decide)

/-! ## The permutation test of Rule 1: lemmas and theorems -/

/-- An entry of a permutation of `{0, ..., n - 1}` is an index below `n`. -/
theorem perm_entry_range (n : Nat) (p : List Int)
    (hp : p.Perm ((List.range n).map Int.ofNat)) (i : Nat) (hi : i < n) :
    ∃ k : Nat, k < n ∧ p.getD i 0 = (k : Int) := by
  have hlen : p.length = n := by simpa using hp.length_eq
  have hmem : p.getD i 0 ∈ p := by
    rw [List.getD_eq_getElem p 0 (by omega)]
    exact List.getElem_mem _
  have := hp.mem_iff.1 hmem
  simp only [List.mem_map, List.mem_range] at this
  obtain ⟨k, hk, hkv⟩ := this
  exact ⟨k, hk, hkv.symm⟩

/-- The scan returns, and returns true exactly when every entry still to visit
is sent by `permute2` to its own index, when all entries are indices of
`permute2`. -/
theorem invalidTransScan_spec (permute2 : List Int) (rest : List Int) :
    ∀ i : Nat, (∀ v ∈ rest, 0 ≤ v ∧ v < (permute2.length : Int)) →
      ∃ b, invalidTransScan permute2 i rest = Outcome.ok b ∧
        (b = true ↔ ∀ j : Nat, j < rest.length →
          permute2.getD (rest.getD j 0).toNat 0 = ((i + j : Nat) : Int)) := by
  induction rest with
  | nil =>
    intro i _
    exact ⟨true, rfl, by simp⟩
  | cons v tl ih =>
    intro i hr
    have hv := hr v (by simp)
    have hnot : ¬ (v < 0 ∨ (permute2.length : Int) ≤ v) := by omega
    by_cases hne : permute2.getD v.toNat 0 = (i : Int)
    · obtain ⟨b, hb, hiff⟩ := ih (i + 1) (fun w hw => hr w (List.mem_cons_of_mem _ hw))
      refine ⟨b, ?_, ?_⟩
      · rw [invalidTransScan, if_neg hnot, if_neg (not_not.2 hne)]
        exact hb
      · rw [hiff]
        constructor
        · intro h j hj
          cases j with
          | zero => simpa only [List.getD_cons_zero, Nat.add_zero] using hne
          | succ j =>
            have := h j (by simpa using hj)
            simp only [List.getD_cons_succ]
            rw [this]
            congr 1
            omega
        · intro h j hj
          have := h (j + 1) (by simpa using hj)
          simp only [List.getD_cons_succ] at this
          rw [this]
          congr 1
          omega
    · refine ⟨false, ?_, ?_⟩
      · rw [invalidTransScan, if_neg hnot, if_pos hne]
      · constructor
        · intro h; cases h
        · intro h
          have := h 0 (by simp)
          simp only [List.getD_cons_zero, Nat.add_zero] at this
          exact absurd this hne

/-- On the indices below `n`, two maps into these indices compose to the
identity in one order exactly when they do in the other. -/
theorem compose_id_comm (n : Nat) (P Q : Nat → Nat) (hP : ∀ i, i < n → P i < n)
    (hQ : ∀ i, i < n → Q i < n) (h : ∀ i, i < n → P (Q i) = i) :
    ∀ i, i < n → Q (P i) = i := by
  let fP : Fin n → Fin n := fun i => ⟨P i.1, hP i.1 i.2⟩
  let fQ : Fin n → Fin n := fun i => ⟨Q i.1, hQ i.1 i.2⟩
  have hleft : Function.LeftInverse fP fQ := fun i => Fin.ext (h i.1 i.2)
  have hsurj : Function.Surjective fQ := Finite.surjective_of_injective hleft.injective
  have hright : Function.RightInverse fP fQ := hleft.rightInverse_of_surjective hsurj
  intro i hi
  have := hright ⟨i, hi⟩
  exact congrArg Fin.val this

/-- C18: for permutations `p` (of the predecessor Transpose) and `q` (of the
Transpose under test) of `{0, ..., n - 1}`, the call `invalid_trans(q, p)` of
Rule 1 returns, and it returns true exactly when `q[p[i]] = i` for every
`i < n`, which is also exactly when `p[q[i]] = i` for every `i < n`, the
condition the loop computes. -/
theorem invalid_trans_iff_inverse (n : Nat) (p q : List Int)
    (hp : p.Perm ((List.range n).map Int.ofNat))
    (hq : q.Perm ((List.range n).map Int.ofNat)) :
    ∃ b, invalid_trans q p = Outcome.ok b ∧
      (b = true ↔ ∀ i : Nat, i < n → q.getD (p.getD i 0).toNat 0 = (i : Int)) ∧
      (b = true ↔ ∀ i : Nat, i < n → p.getD (q.getD i 0).toNat 0 = (i : Int)) := by
  have hplen : p.length = n := by simpa using hp.length_eq
  have hqlen : q.length = n := by simpa using hq.length_eq
  have hqrange : ∀ v ∈ q, 0 ≤ v ∧ v < (p.length : Int) := by
    intro v hv
    have := hq.mem_iff.1 hv
    simp only [List.mem_map, List.mem_range] at this
    obtain ⟨k, hk, hkv⟩ := this
    subst hkv
    rw [hplen]
    exact ⟨Int.ofNat_nonneg k, Int.ofNat_lt.2 hk⟩
  obtain ⟨b, hb, hiff⟩ := invalidTransScan_spec p q 0 hqrange
  have hcode : b = true ↔ ∀ i : Nat, i < n → p.getD (q.getD i 0).toNat 0 = (i : Int) := by
    rw [hiff, hqlen]
    simp
  refine ⟨b, by simp [invalid_trans, hplen, hqlen, hb], ?_, hcode⟩
  rw [hcode]
  -- the two maps on indices
  let P : Nat → Nat := fun i => (p.getD i 0).toNat
  let Q : Nat → Nat := fun i => (q.getD i 0).toNat
  have hPv : ∀ i, i < n → P i < n ∧ p.getD i 0 = (P i : Int) := by
    intro i hi
    obtain ⟨k, hk, hkv⟩ := perm_entry_range n p hp i hi
    have : P i = k := by show (p.getD i 0).toNat = k; rw [hkv, Int.toNat_ofNat]
    rw [this]
    exact ⟨hk, hkv⟩
  have hQv : ∀ i, i < n → Q i < n ∧ q.getD i 0 = (Q i : Int) := by
    intro i hi
    obtain ⟨k, hk, hkv⟩ := perm_entry_range n q hq i hi
    have : Q i = k := by show (q.getD i 0).toNat = k; rw [hkv, Int.toNat_ofNat]
    rw [this]
    exact ⟨hk, hkv⟩
  have hPQ : (∀ i : Nat, i < n → p.getD (q.getD i 0).toNat 0 = (i : Int)) ↔
      ∀ i, i < n → P (Q i) = i := by
    constructor
    · intro h i hi
      have h1 := h i hi
      have h2 := (hPv (Q i) (hQv i hi).1).2
      have : ((P (Q i) : Nat) : Int) = (i : Int) := by rw [← h2]; exact h1
      exact_mod_cast this
    · intro h i hi
      have h2 := (hPv (Q i) (hQv i hi).1).2
      show p.getD (Q i) 0 = (i : Int)
      rw [h2, h i hi]
  have hQP : (∀ i : Nat, i < n → q.getD (p.getD i 0).toNat 0 = (i : Int)) ↔
      ∀ i, i < n → Q (P i) = i := by
    constructor
    · intro h i hi
      have h1 := h i hi
      have h2 := (hQv (P i) (hPv i hi).1).2
      have : ((Q (P i) : Nat) : Int) = (i : Int) := by rw [← h2]; exact h1
      exact_mod_cast this
    · intro h i hi
      have h2 := (hQv (P i) (hPv i hi).1).2
      show q.getD (P i) 0 = (i : Int)
      rw [h2, h i hi]
  rw [hPQ, hQP]
  exact ⟨fun h => compose_id_comm n P Q (fun i hi => (hPv i hi).1) (fun i hi => (hQv i hi).1) h,
    fun h => compose_id_comm n Q P (fun i hi => (hQv i hi).1) (fun i hi => (hPv i hi).1) h⟩

theorem invalid_trans_iff_inverse_witness :
    ∃ b, invalid_trans [1, 2, 0] [2, 0, 1] = Outcome.ok b ∧
      (b = true ↔ ∀ i : Nat, i < 3 →
        ([1, 2, 0] : List Int).getD (([2, 0, 1] : List Int).getD i 0).toNat 0 = (i : Int)) ∧
      (b = true ↔ ∀ i : Nat, i < 3 →
        ([2, 0, 1] : List Int).getD (([1, 2, 0] : List Int).getD i 0).toNat 0 = (i : Int)) :=
  invalid_trans_iff_inverse 3 [2, 0, 1] [1, 2, 0] (by decide) (by decide)

/-! ## Freeing with no free block below the region -/

theorem freeMerge_stop (bound : Nat) (tl : FreeMap) (rhs used : Nat)
    (h : ∀ b ∈ tl.head?, bound < b.1) : freeMerge bound tl rhs used = (tl, rhs, used) := by
  cases tl with
  | nil => rfl
  | cons hd rest =>
    obtain ⟨k, v⟩ := hd
    have hk : bound < k := h (k, v) (by simp)
    have : ¬ k ≤ bound := by omega
    simp [freeMerge, this]

theorem mapAssign_front (k v : Nat) (tl : FreeMap) (h : ∀ b ∈ tl.head?, k < b.1) :
    mapAssign k v tl = (k, v) :: tl := by
  cases tl with
  | nil => rfl
  | cons hd rest =>
    obtain ⟨k1, v1⟩ := hd
    have hk : k < k1 := h (k1, v1) (by simp)
    simp [mapAssign, hk]

/-- C19 (as amended): in a planning-phase state whose free map is well formed
with every block ending below `2 ^ 64`, for a region `[addr, addr + s)` inside
the address space with `s` the aligned size and `s <= used`, when no free block
starts below `addr + s`: `free` returns; a free block starting exactly at
`addr + s` is the first of the map and is replaced by the merged block
`(addr, s + len)`; when there is none the block `(addr, s)` is put in front;
every other entry is kept; and `used` goes down by exactly `s`. -/
theorem free_no_lower_block (a : Allocator) (addr size : Nat)
    (hptr : a.ptr = 0) (hvalid : a.freeBlocks.Valid) (husedlt : a.used < SIZE_MOD)
    (hends : ∀ b ∈ a.freeBlocks, b.1 + b.2 < SIZE_MOD)
    (haddr : addr < SIZE_MOD) (hregion : addr + getAlignedSize size ≤ SIZE_MOD)
    (hfree : ∀ b ∈ a.freeBlocks, addr + getAlignedSize size ≤ b.1)
    (hused : getAlignedSize size ≤ a.used) :
    (a.free addr size).2 = Outcome.ok () ∧
    (a.free addr size).1.used = a.used - getAlignedSize size ∧
    (a.free addr size).1.peak = a.peak ∧ (a.free addr size).1.ptr = a.ptr ∧
    (∀ len, (addr + getAlignedSize size, len) ∈ a.freeBlocks →
      ∃ tl, a.freeBlocks = (addr + getAlignedSize size, len) :: tl ∧
        (a.free addr size).1.freeBlocks = (addr, getAlignedSize size + len) :: tl) ∧
    ((∀ b ∈ a.freeBlocks, b.1 ≠ addr + getAlignedSize size) →
      (a.free addr size).1.freeBlocks = (addr, getAlignedSize size) :: a.freeBlocks) := by
  have hM : SIZE_MOD = 2 ^ 64 := rfl
  have hs := getAlignedSize_lt size
  generalize hsdef : getAlignedSize size = s at *
  obtain ⟨hsorted, hrange⟩ := hvalid
  have hbelow : a.freeBlocks.takeWhile (fun b => decide (b.1 < addr)) = [] := by
    cases hfb : a.freeBlocks with
    | nil => rfl
    | cons hd rest =>
      have := hfree hd (by rw [hfb]; simp)
      have hn : ¬ hd.1 < addr := by omega
      simp [List.takeWhile, hn]
  have habove : a.freeBlocks.dropWhile (fun b => decide (b.1 < addr)) = a.freeBlocks := by
    cases hfb : a.freeBlocks with
    | nil => rfl
    | cons hd rest =>
      have := hfree hd (by rw [hfb]; simp)
      have hn : ¬ hd.1 < addr := by omega
      simp [List.dropWhile, hn]
  have hfreeEq : a.free addr size =
      a.freeFinish [] a.freeBlocks ((addr + s) % SIZE_MOD) addr ((addr + s) % SIZE_MOD)
        a.used := by
    unfold Allocator.free IT_ASSERT
    simp only [hptr, beq_self_eq_true, if_true, hsdef, hbelow, habove, List.reverse_nil]
  rw [hfreeEq]
  cases hfb : a.freeBlocks with
  | nil =>
    have hspan : ((addr + s) % SIZE_MOD + SIZE_MOD - addr) % SIZE_MOD = s := by
      simp only [SIZE_MOD] at *; omega
    have hu : (a.used + SIZE_MOD - s) % SIZE_MOD = a.used - s := by
      simp only [SIZE_MOD] at *; omega
    refine ⟨rfl, ?_, rfl, rfl, ?_, ?_⟩
    · simp only [Allocator.freeFinish, freeMerge, hspan, hu]
    · intro len hlen
      cases hlen
    · intro _
      simp only [Allocator.freeFinish, freeMerge, hspan, List.nil_append, mapAssign]
  | cons hd rest =>
    obtain ⟨k, v⟩ := hd
    rw [hfb] at hsorted hrange hends hfree
    have hk := hfree (k, v) (by simp)
    have hkr := hrange (k, v) (by simp)
    have hke := hends (k, v) (by simp)
    simp only at hk hkr hke
    have hrhs : (addr + s) % SIZE_MOD = addr + s := Nat.mod_eq_of_lt (by omega)
    have hrest : ∀ b ∈ rest.head?, k < b.1 := by
      intro b hb
      have hmem : b ∈ rest := List.mem_of_mem_head? hb
      exact (List.pairwise_cons.1 hsorted).1 b hmem
    by_cases hadj : k = addr + s
    · have hle : k ≤ addr + s := by omega
      have hkv : (k + v) % SIZE_MOD = k + v := Nat.mod_eq_of_lt hke
      have hmax : max (k + v) (addr + s) = k + v := by omega
      have hstop := freeMerge_stop (addr + s) rest (k + v) ((a.used + v) % SIZE_MOD)
        (fun b hb => by have := hrest b hb; omega)
      have hspan : (k + v + SIZE_MOD - addr) % SIZE_MOD = s + v := by
        simp only [SIZE_MOD] at *; omega
      have hu : ((a.used + v) % SIZE_MOD + SIZE_MOD - (s + v)) % SIZE_MOD = a.used - s := by
        simp only [SIZE_MOD] at *; omega
      have hfront := mapAssign_front addr (s + v) rest
        (fun b hb => by have := hrest b hb; omega)
      refine ⟨rfl, ?_, rfl, rfl, ?_, ?_⟩
      · simp only [Allocator.freeFinish, hrhs, freeMerge, hle, if_true, hkv, hmax, hstop, hspan,
          hu]
      · intro len hlen
        have hlenv : len = v := by
          rcases List.mem_cons.1 hlen with h | h
          · exact (Prod.mk.inj h).2
          · have := (List.pairwise_cons.1 hsorted).1 _ h
            simp only at this
            omega
        subst hlenv
        refine ⟨rest, by rw [hadj], ?_⟩
        simp only [Allocator.freeFinish, hrhs, freeMerge, hle, if_true, hkv, hmax, hstop, hspan,
          List.nil_append, hfront]
      · intro hno
        exact absurd hadj (hno (k, v) (by simp))
    · have hnle : ¬ k ≤ addr + s := by omega
      have hspan : (addr + s + SIZE_MOD - addr) % SIZE_MOD = s := by
        simp only [SIZE_MOD] at *; omega
      have hu : (a.used + SIZE_MOD - s) % SIZE_MOD = a.used - s := by
        simp only [SIZE_MOD] at *; omega
      have hfront := mapAssign_front addr s ((k, v) :: rest)
        (fun b hb => by simp at hb; subst hb; simp only; omega)
      refine ⟨rfl, ?_, rfl, rfl, ?_, ?_⟩
      · simp only [Allocator.freeFinish, hrhs, freeMerge, hnle, if_false, hspan, hu]
      · intro len hlen
        exfalso
        rcases List.mem_cons.1 hlen with h | h
        · exact hadj (Prod.mk.inj h).1.symm
        · have := (List.pairwise_cons.1 hsorted).1 _ h
          simp only at this
          omega
      · intro _
        simp only [Allocator.freeFinish, hrhs, freeMerge, hnle, if_false, hspan,
          List.nil_append, hfront]

theorem free_no_lower_block_witness :
    (Allocator.free { used := 24, peak := 32, ptr := 0, freeBlocks := [(16, 8), (32, 8)] }
      8 3).2 = Outcome.ok () ∧
    (Allocator.free { used := 24, peak := 32, ptr := 0, freeBlocks := [(16, 8), (32, 8)] }
      8 3).1.used = 24 - getAlignedSize 3 ∧
    (Allocator.free { used := 24, peak := 32, ptr := 0, freeBlocks := [(16, 8), (32, 8)] }
      8 3).1.peak = 32 ∧
    (Allocator.free { used := 24, peak := 32, ptr := 0, freeBlocks := [(16, 8), (32, 8)] }
      8 3).1.ptr = 0 ∧
    (∀ len, (8 + getAlignedSize 3, len) ∈ ([(16, 8), (32, 8)] : FreeMap) →
      ∃ tl, ([(16, 8), (32, 8)] : FreeMap) = (8 + getAlignedSize 3, len) :: tl ∧
        (Allocator.free { used := 24, peak := 32, ptr := 0, freeBlocks := [(16, 8), (32, 8)] }
          8 3).1.freeBlocks = (8, getAlignedSize 3 + len) :: tl) ∧
    ((∀ b ∈ ([(16, 8), (32, 8)] : FreeMap), b.1 ≠ 8 + getAlignedSize 3) →
      (Allocator.free { used := 24, peak := 32, ptr := 0, freeBlocks := [(16, 8), (32, 8)] }
        8 3).1.freeBlocks = (8, getAlignedSize 3) :: [(16, 8), (32, 8)]) :=
  free_no_lower_block { used := 24, peak := 32, ptr := 0, freeBlocks := [(16, 8), (32, 8)] }
    8 3 rfl (by decide) (by decide) (by decide) (by decide) (by decide) (by decide)
    (by decide)

/-- C19 (as stated) fails in states the free map admits. With the free block
`(8, 2 ^ 64 - 8)`, which ends at `2 ^ 64`, and `used = 8`, `free 0 8` computes
the end of that block as 0: the map becomes `[(0, 8)]` and `used` wraps to
`2 ^ 64 - 8`. With the empty free block `(8, 0)` inside the region `[0, 16)`,
`free 0 16` erases that block. With `used = 0`, `free 0 16` wraps `used`. -/
theorem free_no_lower_block_breaks :
    Allocator.free { used := 8, peak := 8, ptr := 0, freeBlocks := [(8, 2 ^ 64 - 8)] } 0 8 =
      ({ used := 2 ^ 64 - 8, peak := 8, ptr := 0, freeBlocks := [(0, 8)] }, Outcome.ok ()) ∧
    Allocator.free { used := 16, peak := 16, ptr := 0, freeBlocks := [(8, 0), (32, 8)] } 0 16 =
      ({ used := 0, peak := 16, ptr := 0, freeBlocks := [(0, 16), (32, 8)] },
        Outcome.ok ()) ∧
    Allocator.free { used := 0, peak := 16, ptr := 0, freeBlocks := [(32, 8)] } 0 16 =
      ({ used := 2 ^ 64 - 16, peak := 16, ptr := 0, freeBlocks := [(0, 16), (32, 8)] },
        Outcome.ok ()) := by
  decide

/-! ## The optimizer on the example graphs -/

/-- C11 (code defect): `sharedMiddleGraph` passes `checkValid` and sorts, and its
intermediate tensor 2 has the second Transpose and operator 4 as consumers.
Rule 1 has no test that the second Transpose is the only consumer (Rule 2 tests
`getSuccessors().size() == 1`): `optimize` removes both Transposes and the
tensors 2 and 3, operator 4 still reads tensor 2 and still has the removed
operator 1 as predecessor, and `checkValid` fails on the result. On
`barePairGraph`, whose second Transpose feeds no operator, `optimize` leaves
the tensor 1 with no source and no target, and `checkValid` fails too. -/
theorem optimize_breaks_checkValid :
    sharedMiddleGraph.checkValid = Outcome.ok true ∧
    (∃ g, sharedMiddleGraph.optimize = Outcome.ok g ∧ g.ops = [3, 4] ∧ g.tensors = [1, 4, 5] ∧
      g.inputs 4 = [2] ∧ g.predecessors 4 = [1] ∧ g.checkValid = Outcome.assertionFailed) ∧
    barePairGraph.checkValid = Outcome.ok true ∧
    (∃ g, barePairGraph.optimize = Outcome.ok g ∧ g.ops = [] ∧ g.tensors = [1] ∧
      g.source 1 = none ∧ g.targets 1 = [] ∧ g.checkValid = Outcome.assertionFailed) :=
  ⟨rfl, ⟨_, rfl, rfl, rfl, rfl, rfl, rfl⟩, rfl, ⟨_, rfl, rfl, rfl, rfl, rfl, rfl⟩⟩

/-- C17 (code defect): `producedPairGraph` passes `checkValid`, sorts, and its
predecessor and successor lists agree with the tensor edges. Rule 1 removes the
two Transposes and calls `addSuccessors` on their producer, operator 4, but
never `addPredecessors` on the consumer: afterwards operator 3 reads tensor 1,
whose source is operator 4, and operator 4 lists 3 as successor, yet the
predecessor list of operator 3 is empty. Rule 2 does the same on
`producedFusionGraph`: the MatMul 3 reads tensor 2 made by operator 1, which
lists 3 as successor, and the MatMul has no predecessor. -/
theorem optimize_breaks_edges :
    producedPairGraph.checkValid = Outcome.ok true ∧ producedPairGraph.edgesAgree = true ∧
    (∃ g, producedPairGraph.optimize = Outcome.ok g ∧ g.ops = [4, 3] ∧ g.inputs 3 = [1] ∧
      g.source 1 = some 4 ∧ g.successors 4 = [3] ∧ g.predecessors 3 = [] ∧
      g.edgesAgree = false) ∧
    producedFusionGraph.checkValid = Outcome.ok true ∧ producedFusionGraph.edgesAgree = true ∧
    (∃ g, producedFusionGraph.optimize = Outcome.ok g ∧ g.ops = [1, 3] ∧ g.inputs 3 = [2, 4] ∧
      g.source 2 = some 1 ∧ g.successors 1 = [3] ∧ g.predecessors 3 = [] ∧
      g.edgesAgree = false) :=
  ⟨rfl, rfl, ⟨_, rfl, rfl, rfl, rfl, rfl, rfl, rfl⟩, rfl, rfl,
    ⟨_, rfl, rfl, rfl, rfl, rfl, rfl, rfl⟩⟩

set_option maxHeartbeats 8000000 in
/-- The Rule 1 example with a downstream Transpose of any permutation, the
operators attached in the given order. -/
theorem inverse_pair_before_transpose (dPermute : List Int) (order : List Nat)
    (horder : order ∈ [[1, 2, 3], [1, 3, 2], [2, 1, 3], [2, 3, 1], [3, 1, 2], [3, 2, 1]]) :
    (inversePairGraph OpType.Transpose [3] dPermute false false order).checkValid =
      Outcome.ok true ∧
    ∃ g, (inversePairGraph OpType.Transpose [3] dPermute false false order).optimize =
        Outcome.ok g ∧
      g.ops = [3] ∧ g.tensors = [1, 4] ∧ g.inputs 3 = [1] ∧
      (g.targets 1).dedup = [3] ∧ g.checkValid = Outcome.ok true := by
  simp only [List.mem_cons, List.mem_singleton, List.not_mem_nil, or_false] at horder
  rcases horder with rfl | rfl | rfl | rfl | rfl | rfl <;>
    simp +decide [inversePairGraph, pairObjects, GraphObj.addOperatorAndConnect,
      GraphObj.connectInput, GraphObj.connectOutput, GraphObj.addTarget, GraphObj.setSource,
      GraphObj.addSuccessors, GraphObj.addPredecessors, setAt, GraphObj.checkValid,
      GraphObj.tensorValid, GraphObj.opValid, GraphObj.optimize, GraphObj.topo_sort,
      GraphObj.topoLoop, GraphObj.topoPass, GraphObj.ready, GraphObj.optimizeScan,
      GraphObj.rule1, GraphObj.rule2, GraphObj.rule2Input, GraphObj.eliminatePair,
      GraphObj.fuseTranspose, GraphObj.redirectTargets, GraphObj.removeTarget,
      GraphObj.replaceInput, GraphObj.removeTensor, GraphObj.removeOperator,
      GraphObj.removeSuccessors, GraphObj.removePredecessors, Outcome.bind, invalid_trans,
      invalidTransScan, last2_premute, last2Scan]

/-- C12: take the graph made of the input tensor `x` (1), a Transpose `[1, 0]`
making `t1` (2) from it, a second Transpose `[1, 0]` making `t2` (3) from `t1`,
and one downstream operator (3) reading `t2`: a Transpose of any permutation, a
MatMul with any flags reading `t2` beside a further graph input (5) or twice,
or an operator of another kind reading `t2` alone, twice or beside the input 5;
the operators are attached in any order. The graph passes `checkValid`, and
after `optimize` only the downstream operator is left, `t1` and `t2` are gone
from the tensor set, the downstream operator reads `x` where it read `t2`, the
targets of `x` are that operator alone, and `checkValid` holds. -/
theorem inverse_pair_eliminated (kind : OpType) (dInputs : List Nat) (dPermute : List Int)
    (dTransA dTransB : Bool) (order : List Nat)
    (hin : dInputs ∈ [[3], [3, 5], [5, 3], [3, 3]])
    (hunary : kind = OpType.Transpose → dInputs = [3])
    (hbinary : kind = OpType.MatMul → dInputs.length = 2)
    (hperm : kind ≠ OpType.Transpose → dPermute = [])
    (hflags : kind ≠ OpType.MatMul → dTransA = false ∧ dTransB = false)
    (horder : order ∈ [[1, 2, 3], [1, 3, 2], [2, 1, 3], [2, 3, 1], [3, 1, 2], [3, 2, 1]]) :
    (inversePairGraph kind dInputs dPermute dTransA dTransB order).checkValid =
      Outcome.ok true ∧
    ∃ g, (inversePairGraph kind dInputs dPermute dTransA dTransB order).optimize =
        Outcome.ok g ∧
      g.ops = [3] ∧ g.tensors = (if 5 ∈ dInputs then [1, 4, 5] else [1, 4]) ∧
      g.inputs 3 = dInputs.map (fun t => if t = 3 then 1 else t) ∧
      (g.targets 1).dedup = [3] ∧ g.checkValid = Outcome.ok true := by
  cases kind
  · obtain rfl := hunary rfl
    obtain ⟨rfl, rfl⟩ := hflags (by decide)
    exact inverse_pair_before_transpose dPermute order horder
  · obtain rfl := hperm (by decide)
    simp only [List.mem_cons, List.mem_singleton, List.not_mem_nil, or_false] at hin horder
    rcases hin with rfl | rfl | rfl | rfl
    · exact absurd (hbinary rfl) (by decide)
    all_goals
      cases dTransA <;> cases dTransB <;>
      rcases horder with rfl | rfl | rfl | rfl | rfl | rfl <;>
      exact ⟨rfl, _, rfl, rfl, rfl, rfl, rfl, rfl⟩
  · obtain rfl := hperm (by decide)
    obtain ⟨rfl, rfl⟩ := hflags (by decide)
    simp only [List.mem_cons, List.mem_singleton, List.not_mem_nil, or_false] at hin horder
    rcases hin with rfl | rfl | rfl | rfl <;>
      rcases horder with rfl | rfl | rfl | rfl | rfl | rfl <;>
      exact ⟨rfl, _, rfl, rfl, rfl, rfl, rfl, rfl⟩

theorem inverse_pair_eliminated_witness :
    (inversePairGraph OpType.Other [3] [] false false [1, 2, 3]).checkValid =
      Outcome.ok true ∧
    ∃ g, (inversePairGraph OpType.Other [3] [] false false [1, 2, 3]).optimize =
        Outcome.ok g ∧
      g.ops = [3] ∧ g.tensors = (if 5 ∈ [3] then [1, 4, 5] else [1, 4]) ∧
      g.inputs 3 = [3].map (fun t => if t = 3 then 1 else t) ∧
      (g.targets 1).dedup = [3] ∧ g.checkValid = Outcome.ok true :=
  inverse_pair_eliminated OpType.Other [3] [] false false [1, 2, 3] (by decide) (by decide)
    (by decide) (by decide) (by decide) (by decide)

/-! ## Memory planning: lemmas and theorem -/

theorem topo_sort_frame (g gs : GraphObj) (b : Bool) (h : g.topo_sort = some (gs, b)) :
    gs.tensors = g.tensors ∧ gs.bytes = g.bytes ∧ gs.allocator = g.allocator ∧
      gs.dataBlob = g.dataBlob := by
  unfold GraphObj.topo_sort at h
  split at h
  · simp only [Option.some.injEq, Prod.mk.injEq] at h
    obtain ⟨rfl, _⟩ := h
    exact ⟨rfl, rfl, rfl, rfl⟩
  · split at h
    · cases h
    · simp only [Option.some.injEq, Prod.mk.injEq] at h
      obtain ⟨rfl, _⟩ := h
      exact ⟨rfl, rfl, rfl, rfl⟩
    · simp only [Option.some.injEq, Prod.mk.injEq] at h
      obtain ⟨rfl, _⟩ := h
      exact ⟨rfl, rfl, rfl, rfl⟩

/-- The first loop adds up the byte sizes when the sum stays below `2 ^ 64`. -/
theorem totalSize_eq_sum (g : GraphObj) (l : List Nat) :
    ∀ total, total + (l.map g.bytes).sum < SIZE_MOD →
      g.totalSize l total = total + (l.map g.bytes).sum := by
  induction l with
  | nil => intro total _; simp [GraphObj.totalSize]
  | cons t rest ih =>
    intro total h
    simp only [List.map_cons, List.sum_cons] at h
    have hmod : (total + g.bytes t) % SIZE_MOD = total + g.bytes t :=
      Nat.mod_eq_of_lt (by omega)
    simp only [GraphObj.totalSize, hmod, List.map_cons, List.sum_cons]
    rw [ih (total + g.bytes t) (by omega)]
    omega

theorem getAlignedSize_eq_alignUp_of_fit (size L : Nat) (hL : L < SIZE_MOD)
    (hfit : alignUp size ≤ L) : getAlignedSize size = alignUp size := by
  by_cases h0 : size = 0
  · subst h0; decide
  · apply getAlignedSize_eq_alignUp size (by omega)
    have := alignUp_least size
    unfold SIZE_MOD at *
    omega

/-- The one `alloc` of `dataMalloc` on the single block `[0, L)`. -/
theorem alloc_planning_total (L size : Nat) (hL : L < SIZE_MOD) (hfit : alignUp size ≤ L) :
    ∃ fb, (Allocator.planning L).alloc size =
      ({ used := alignUp size, peak := alignUp size, ptr := 0, freeBlocks := fb },
        Outcome.ok 0) := by
  have hal := getAlignedSize_eq_alignUp_of_fit size L hL hfit
  have hmod : alignUp size % SIZE_MOD = alignUp size := Nat.mod_eq_of_lt (by omega)
  refine ⟨if L - alignUp size > 0 then
    mapAssign (alignUp size) (L - alignUp size) (mapErase 0 [(0, L)])
    else mapErase 0 [(0, L)], ?_⟩
  simp only [Allocator.alloc, IT_ASSERT, Allocator.planning, beq_self_eq_true, if_true, hal,
    Allocator.allocScan, ge_iff_le, hfit, Allocator.takeBlock, Nat.zero_add, hmod,
    Nat.zero_max]

/-- The second loop, from a state whose allocator holds no buffer yet or the
buffer `base` already: every tensor of the list is bound to `base` plus the
running offset, and the allocator ends holding `base`. -/
theorem bindBlobs_spec (rtAlloc : Nat → Nat) (base peak : Nat) (hbase : rtAlloc peak = base)
    (hnz : base ≠ 0) (l : List Nat) :
    ∀ (g : GraphObj) (addr : Nat), g.allocator.peak = peak →
      (g.allocator.ptr = 0 ∨ g.allocator.ptr = base) → l.Nodup →
      addr + (l.map g.bytes).sum < SIZE_MOD →
      (GraphObj.bindBlobs rtAlloc l g addr).allocator.peak = peak ∧
      (l ≠ [] → (GraphObj.bindBlobs rtAlloc l g addr).allocator.ptr = base) ∧
      (∀ t, t ∉ l → (GraphObj.bindBlobs rtAlloc l g addr).dataBlob t = g.dataBlob t) ∧
      ∀ (i t : Nat), l[i]? = some t →
        (GraphObj.bindBlobs rtAlloc l g addr).dataBlob t =
          some (base + (addr + ((l.take i).map g.bytes).sum)) := by
  induction l with
  | nil =>
    intro g addr hpeak _ _ _
    refine ⟨hpeak, fun h => absurd rfl h, fun _ _ => rfl, ?_⟩
    intro i t hi
    simp at hi
  | cons hd rest ih =>
    intro g addr hpeak hptr hnd hsum
    simp only [List.map_cons, List.sum_cons] at hsum
    obtain ⟨hnotin, hndrest⟩ := List.nodup_cons.1 hnd
    have hget : g.allocator.getPtr rtAlloc = ({ g.allocator with ptr := base }, base) := by
      rcases hptr with h0 | hb
      · simp [Allocator.getPtr, h0, hpeak, hbase]
      · have hne : g.allocator.ptr ≠ 0 := by rw [hb]; exact hnz
        have heta : ({ g.allocator with ptr := base } : Allocator) = g.allocator := by
          cases hga : g.allocator with
          | mk u p q f =>
            rw [hga] at hb
            simp only at hb
            subst hb
            rfl
        simp only [Allocator.getPtr, heta, hb, if_neg hnz]
    have hmod : (addr + g.bytes hd) % SIZE_MOD = addr + g.bytes hd :=
      Nat.mod_eq_of_lt (by omega)
    have hstep : GraphObj.bindBlobs rtAlloc (hd :: rest) g addr =
        GraphObj.bindBlobs rtAlloc rest
          (GraphObj.setDataBlob { g with allocator := { g.allocator with ptr := base } } hd
            (base + addr)) (addr + g.bytes hd) := by
      simp only [GraphObj.bindBlobs, hget, hmod]
    rw [hstep]
    have hrec := ih (GraphObj.setDataBlob { g with allocator := { g.allocator with ptr := base } }
      hd (base + addr)) (addr + g.bytes hd) hpeak (Or.inr rfl) hndrest
      (by simp only [GraphObj.setDataBlob]; omega)
    obtain ⟨h1, h2, h3, h4⟩ := hrec
    refine ⟨h1, ?_, ?_, ?_⟩
    · intro _
      by_cases hr : rest = []
      · subst hr; rfl
      · exact h2 hr
    · intro t ht
      have htne : t ≠ hd := fun h => ht (by rw [h]; simp)
      have htr : t ∉ rest := fun h => ht (List.mem_cons_of_mem _ h)
      rw [h3 t htr]
      simp [GraphObj.setDataBlob, setAt, htne]
    · intro i t hi
      cases i with
      | zero =>
        simp only [List.getElem?_cons_zero, Option.some.injEq] at hi
        subst hi
        rw [h3 _ hnotin]
        simp [GraphObj.setDataBlob, setAt]
      | succ j =>
        simp only [List.getElem?_cons_succ] at hi
        rw [h4 j t hi]
        simp only [GraphObj.setDataBlob, List.take_succ_cons, List.map_cons, List.sum_cons]
        congr 1
        omega

/-- The offsets `dataMalloc` hands out are consecutive: the tensor number `i`
ends at or before the offset of every later tensor. -/
theorem prefix_sums_consecutive (f : Nat → Nat) (l : List Nat) (i j t : Nat) (hij : i < j)
    (hi : l[i]? = some t) :
    ((l.take i).map f).sum + f t ≤ ((l.take j).map f).sum := by
  have h1 : l.take (i + 1) = l.take i ++ [t] := by
    rw [List.take_succ, hi]
    rfl
  have h2 : ((l.take (i + 1)).map f).sum = ((l.take i).map f).sum + f t := by
    rw [h1]
    simp
  have h3 : (l.take j).take (i + 1) = l.take (i + 1) := by
    rw [List.take_take, Nat.min_eq_left (by omega)]
  have h4 := List.sum_take_add_sum_drop ((l.take j).map f) (i + 1)
  rw [← List.map_take, h3, h2] at h4
  omega

/-- C16, as stated, fails when the tensor list names a tensor twice:
`repeatedTensorGraph` sorts, its allocator is in planning phase with the free
block `[0, 64)`, and its tensor list is tensor 10 (8 bytes) twice. `dataMalloc`
returns with `peak = 16`; the second pass of the loop binds tensor 10 again, so
the tensor number 0 of the list is left bound to the buffer base plus 8, not to
the buffer base, and the two entries of the list share one byte range. -/
theorem dataMalloc_repeated_tensor :
    repeatedTensorGraph.tensors[0]? = some 10 ∧ repeatedTensorGraph.tensors[1]? = some 10 ∧
    repeatedTensorGraph.bytes 10 = 8 ∧
    ∃ g2, repeatedTensorGraph.dataMalloc (fun _ => 4096) = Outcome.ok g2 ∧
      g2.allocator.peak = 16 ∧ g2.allocator.ptr = 4096 ∧ g2.dataBlob 10 = some (4096 + 8) :=
  ⟨rfl, rfl, rfl, _, rfl, rfl, rfl, rfl⟩

/-- C16 (amended): for a graph that sorts, whose tensor list names each tensor
once and whose allocator is in planning phase with `used = peak = 0` and the single free
block `[0, L)`, `L` being at least the total byte size rounded up to a multiple
of 8, and a runtime that hands out a non-null buffer: `dataMalloc` returns,
`peak` is that rounded total and is the size requested for the one buffer, and
the tensor number `i` of the list is bound to the buffer base plus the sum of
the byte sizes of the tensors before it, its range ending inside `[0, peak)` and
at or before the offset of every later tensor. -/
theorem dataMalloc_binds (rtAlloc : Nat → Nat) (g gs : GraphObj) (L : Nat)
    (hsort : g.topo_sort = some (gs, true)) (halloc : g.allocator = Allocator.planning L)
    (hL : L < SIZE_MOD) (hfit : alignUp (g.tensors.map g.bytes).sum ≤ L)
    (hnd : g.tensors.Nodup) (hbase : rtAlloc (alignUp (g.tensors.map g.bytes).sum) ≠ 0) :
    ∃ g', g.dataMalloc rtAlloc = Outcome.ok g' ∧
      g'.allocator.peak = alignUp (g.tensors.map g.bytes).sum ∧
      (g.tensors ≠ [] →
        g'.allocator.ptr = rtAlloc (alignUp (g.tensors.map g.bytes).sum)) ∧
      ∀ (i t : Nat), g.tensors[i]? = some t →
        g'.dataBlob t = some (rtAlloc (alignUp (g.tensors.map g.bytes).sum) +
          ((g.tensors.take i).map g.bytes).sum) ∧
        ((g.tensors.take i).map g.bytes).sum + g.bytes t ≤
          alignUp (g.tensors.map g.bytes).sum ∧
        ∀ j, i < j → ((g.tensors.take i).map g.bytes).sum + g.bytes t ≤
          ((g.tensors.take j).map g.bytes).sum := by
  obtain ⟨hten, hbytes, hga, _⟩ := topo_sort_frame g gs true hsort
  have hle := (alignUp_least (g.tensors.map g.bytes).sum).2.1
  have htotal : gs.totalSize gs.tensors 0 = (g.tensors.map g.bytes).sum := by
    rw [totalSize_eq_sum gs gs.tensors 0 (by rw [hten, hbytes]; omega), hten, hbytes]
    omega
  obtain ⟨fb, hres⟩ := alloc_planning_total L _ hL hfit
  have hdm : g.dataMalloc rtAlloc = Outcome.ok (GraphObj.bindBlobs rtAlloc gs.tensors
      { gs with allocator :=
        { used := alignUp (g.tensors.map g.bytes).sum,
          peak := alignUp (g.tensors.map g.bytes).sum, ptr := 0, freeBlocks := fb } } 0) := by
    simp only [GraphObj.dataMalloc, hsort, htotal, hga, halloc, hres]
  refine ⟨_, hdm, ?_⟩
  have hspec := bindBlobs_spec rtAlloc _ _ rfl hbase gs.tensors
    { gs with allocator :=
      { used := alignUp (g.tensors.map g.bytes).sum,
        peak := alignUp (g.tensors.map g.bytes).sum, ptr := 0, freeBlocks := fb } } 0 rfl
    (Or.inl rfl) (by rw [hten]; exact hnd) (by simp only [hten, hbytes]; omega)
  obtain ⟨h1, h2, _, h4⟩ := hspec
  refine ⟨h1, fun hne => h2 (by rw [hten]; exact hne), ?_⟩
  intro i t hi
  refine ⟨?_, ?_, fun j hij => prefix_sums_consecutive g.bytes g.tensors i j t hij hi⟩
  · rw [h4 i t (by rw [hten]; exact hi)]
    simp only [hten, hbytes, Nat.zero_add]
  · have hsplit : (g.tensors.map g.bytes).sum =
        ((g.tensors.take i).map g.bytes).sum + ((g.tensors.drop i).map g.bytes).sum := by
      rw [← List.sum_append, ← List.map_append, List.take_append_drop]
    have hdrop : g.bytes t ≤ ((g.tensors.drop i).map g.bytes).sum := by
      have hmem : t ∈ g.tensors.drop i := by
        rw [List.mem_iff_getElem?]
        exact ⟨0, by simpa using hi⟩
      exact List.single_le_sum (fun _ _ => Nat.zero_le _) _ (List.mem_map_of_mem _ hmem)
    omega


/-- Witness for C16: `plannedGraph`, three tensors of 4, 12 and 8 bytes and a free
block of 64 bytes, with a runtime that hands out the buffer at 4096. -/
theorem dataMalloc_binds_witness :
    ∃ g2, plannedGraph.dataMalloc (fun _ => 4096) = Outcome.ok g2 ∧
      g2.allocator.peak = alignUp (plannedGraph.tensors.map plannedGraph.bytes).sum ∧
      (plannedGraph.tensors ≠ [] →
        g2.allocator.ptr = (fun _ => 4096) (alignUp (plannedGraph.tensors.map plannedGraph.bytes).sum)) ∧
      ∀ (i t : Nat), plannedGraph.tensors[i]? = some t →
        g2.dataBlob t = some ((fun _ => 4096) (alignUp (plannedGraph.tensors.map plannedGraph.bytes).sum) +
          ((plannedGraph.tensors.take i).map plannedGraph.bytes).sum) ∧
        ((plannedGraph.tensors.take i).map plannedGraph.bytes).sum + plannedGraph.bytes t ≤
          alignUp (plannedGraph.tensors.map plannedGraph.bytes).sum ∧
        ∀ j, i < j → ((plannedGraph.tensors.take i).map plannedGraph.bytes).sum +
          plannedGraph.bytes t ≤ ((plannedGraph.tensors.take j).map plannedGraph.bytes).sum :=
  dataMalloc_binds (fun _ => 4096) plannedGraph
    { plannedGraph with ops := [1, 2, 3], sorted := true } 64 rfl rfl (by decide) (by decide)
    (by decide) (by decide)
/-! ## Rule 2 in an arbitrary graph: lemmas -/

end infini
